import Mathlib

/-!
Verification development for the image-processing core in
src/src/jpg_handler/jpeg.cpp (class marengo::jpeg::Image).

The in-memory pixel buffer (m_bitmapData : rows of uint8_t, together with
m_width, m_height, m_pixelSize) is embedded as lists of natural numbers;
uint8_t arithmetic is modeled with explicit reduction mod 256, and the
int16_t arithmetic of the color ditherer is modeled on ℤ with Int.tdiv,
which truncates toward zero exactly like C++ integer division.
The float scale factor of shrink is modeled by the exact rational
newWidth / width, so that the truncation idx = floor(scale * col) becomes
Nat division (newWidth * col) / width.  Fallible operations return Except.
-/

namespace Jpeg

/-! ### List access toolkit -/

/-- Writing the value already stored at an index leaves a list unchanged
(also when the index is out of range, where List.set is the identity). -/
theorem set_getD_eq_self {α : Type} (l : List α) (d : α) :
    ∀ n : ℕ, l.set n (l.getD n d) = l := by
  induction l with
  | nil => intro n; rfl
  | cons a t ih =>
      intro n
      cases n with
      | zero => rfl
      | succ m => exact congrArg (List.cons a) (ih m)

/-- List.set beyond the length is the identity. -/
theorem set_of_length_le {α : Type} (l : List α) (v : α) :
    ∀ n : ℕ, l.length ≤ n → l.set n v = l := by
  induction l with
  | nil => intro n _; rfl
  | cons a t ih =>
      intro n hn
      cases n with
      | zero => simp at hn
      | succ m =>
          simp only [List.length_cons, Nat.succ_le_succ_iff] at hn
          simp only [List.set, ih m hn]

/-- Reading back a value just written in range. -/
theorem getD_set_self {α : Type} (l : List α) (v d : α) :
    ∀ n : ℕ, n < l.length → (l.set n v).getD n d = v := by
  induction l with
  | nil => intro n hn; simp at hn
  | cons a t ih =>
      intro n hn
      cases n with
      | zero => rfl
      | succ m =>
          simp only [List.length_cons, Nat.succ_lt_succ_iff] at hn
          simpa using ih m hn

/-- Writing one index does not change reads at another index. -/
theorem getD_set_ne {α : Type} (l : List α) (v d : α) :
    ∀ m n : ℕ, m ≠ n → (l.set m v).getD n d = l.getD n d := by
  induction l with
  | nil => intro m n _; rfl
  | cons a t ih =>
      intro m n hmn
      cases m with
      | zero =>
          cases n with
          | zero => exact absurd rfl hmn
          | succ k => rfl
      | succ m0 =>
          cases n with
          | zero => rfl
          | succ k =>
              simpa using ih m0 k (fun h => hmn (by simp [h]))

/-- getD of a replicate list inside the range. -/
theorem getD_replicate {α : Type} (x d : α) :
    ∀ (n i : ℕ), i < n → (List.replicate n x).getD i d = x := by
  intro n
  induction n with
  | zero => intro i hi; simp at hi
  | succ m ih =>
      intro i hi
      cases i with
      | zero => rfl
      | succ j =>
          simp only [List.replicate]
          exact ih j (Nat.succ_lt_succ_iff.mp hi)

/-- getD past the end of a list gives the default. -/
theorem getD_of_length_le {α : Type} (l : List α) (d : α) :
    ∀ n : ℕ, l.length ≤ n → l.getD n d = d := by
  induction l with
  | nil => intro n _; rfl
  | cons a t ih =>
      intro n hn
      cases n with
      | zero => simp at hn
      | succ m =>
          simp only [List.length_cons, Nat.succ_le_succ_iff] at hn
          simpa using ih m hn

/-- An in-range getD returns an element of the list. -/
theorem getD_mem {α : Type} (l : List α) (d : α) :
    ∀ n : ℕ, n < l.length → l.getD n d ∈ l := by
  induction l with
  | nil => intro n hn; simp at hn
  | cons a t ih =>
      intro n hn
      cases n with
      | zero => simp [List.getD]
      | succ m =>
          simp only [List.length_cons, Nat.succ_lt_succ_iff] at hn
          exact List.mem_cons_of_mem a (ih m hn)

/-! ### Byte grids -/

/-- A bitmap: the list of scanlines, each a list of byte values
(m_bitmapData in the source). -/
abbrev Grid := List (List ℕ)

/-- Read byte at (row r, column c); out of range reads give 0
(the C++ source never reads out of range on the inputs our theorems
quantify over). -/
def get2 (g : Grid) (r c : ℕ) : ℕ := (g.getD r []).getD c 0

/-- Write byte at (row r, column c); out of range writes are dropped. -/
def set2 (g : Grid) (r c v : ℕ) : Grid := g.set r ((g.getD r []).set c v)

theorem set2_length (g : Grid) (r c v : ℕ) : (set2 g r c v).length = g.length := by
  simp [set2]

theorem set2_rowlen (g : Grid) (r c v : ℕ) (r0 : ℕ) :
    ((set2 g r c v).getD r0 []).length = (g.getD r0 []).length := by
  unfold set2
  by_cases h : r = r0
  · subst h
    by_cases hr : r < g.length
    · rw [getD_set_self _ _ _ _ hr]; simp
    · rw [set_of_length_le _ _ _ (Nat.le_of_not_lt hr)]
  · rw [getD_set_ne _ _ _ _ _ h]

theorem get2_set2_self (g : Grid) (r c v : ℕ)
    (hr : r < g.length) (hc : c < (g.getD r []).length) :
    get2 (set2 g r c v) r c = v := by
  unfold get2 set2
  rw [getD_set_self _ _ _ _ hr, getD_set_self _ _ _ _ hc]

theorem get2_set2_ne (g : Grid) (r c v r0 c0 : ℕ)
    (h : r ≠ r0 ∨ c ≠ c0) :
    get2 (set2 g r c v) r0 c0 = get2 g r0 c0 := by
  unfold get2 set2
  rcases h with h | h
  · rw [getD_set_ne _ _ _ _ _ h]
  · by_cases hr : r = r0
    · subst hr
      by_cases hlen : r < g.length
      · rw [getD_set_self _ _ _ _ hlen, getD_set_ne _ _ _ _ _ h]
      · rw [set_of_length_le _ _ _ (Nat.le_of_not_lt hlen)]
    · rw [getD_set_ne _ _ _ _ _ hr]

/-- Writing back the currently stored byte leaves the grid unchanged. -/
theorem set2_get2_self (g : Grid) (r c : ℕ) :
    set2 g r c (get2 g r c) = g := by
  unfold set2 get2
  rw [set_getD_eq_self, set_getD_eq_self]

/-- All bytes of a grid are below 256 (well-formed uint8_t contents). -/
def Grid.Bytes (g : Grid) : Prop := ∀ l ∈ g, ∀ v ∈ l, v < 256

theorem get2_lt_of_bytes {g : Grid} (hg : Grid.Bytes g) (r c : ℕ) :
    get2 g r c < 256 := by
  unfold get2
  by_cases hr : r < g.length
  · by_cases hc : c < (g.getD r []).length
    · exact hg _ (getD_mem _ _ _ hr) _ (getD_mem _ _ _ hc)
    · rw [getD_of_length_le _ _ _ (Nat.le_of_not_lt hc)]; omega
  · rw [getD_of_length_le _ _ _ (Nat.le_of_not_lt hr),
      getD_of_length_le ([] : List ℕ) 0 c (Nat.zero_le c)]
    omega

/-! ### The image record -/

/-- The pixel buffer of marengo::jpeg::Image: m_bitmapData, m_width,
m_height, m_pixelSize. -/
structure Image where
  bitmapData : Grid
  width : ℕ
  height : ℕ
  pixelSize : ℕ
deriving DecidableEq

/-! ### Monochrome Floyd-Steinberg ditherer (Image::fsd) -/

/-- The quantizer of Image::fsd, line 420:
newPixel = oldPixel <= 128 ? 0xFF : 0x00. -/
def fsdQuant (old : ℕ) : ℕ := if old ≤ 128 then 255 else 0

/-- The error of Image::fsd, line 421: error = oldPixel - newPixel stored
into a uint8_t, hence reduced mod 256 (for old, np ≤ 255). -/
def fsdErr (old np : ℕ) : ℕ := (old + 256 - np) % 256

/-- uint8_t += of a nonnegative int summand: wraparound mod 256. -/
def byteAdd (v t : ℕ) : ℕ := (v + t) % 256

/-- One iteration of the fsd pixel loop body, lines 416-427: borders are
forced to 0xFF; interior pixels are quantized and the wrapped error is
diffused per-term to the four Floyd-Steinberg neighbors, in source order. -/
def fsdPixel (g : Grid) (row col w h : ℕ) : Grid :=
  if col = 0 ∨ col = w - 1 ∨ row = h - 1 then
    set2 g row col 255
  else
    let old := get2 g row col
    let np := fsdQuant old
    let e := fsdErr old np
    let g1 := set2 g row (col + 1) (byteAdd (get2 g row (col + 1)) (e * 7 / 16))
    let g2 := set2 g1 (row + 1) (col + 1) (byteAdd (get2 g1 (row + 1) (col + 1)) (e * 1 / 16))
    let g3 := set2 g2 (row + 1) col (byteAdd (get2 g2 (row + 1) col) (e * 5 / 16))
    let g4 := set2 g3 (row + 1) (col - 1) (byteAdd (get2 g3 (row + 1) (col - 1)) (e * 3 / 16))
    set2 g4 row col np

/-- Process the first n columns of one fsd row (the source loop runs
col = 0 .. w-1). -/
def fsdRow (g : Grid) (row w h : ℕ) : ℕ → Grid
  | 0 => g
  | n + 1 => fsdPixel (fsdRow g row w h n) row n w h

/-- Process the first n rows of the fsd error-diffusion pass
(the source loop runs row = 0 .. h-1, each over all w columns). -/
def fsdPass (g : Grid) (w h : ℕ) : ℕ → Grid
  | 0 => g
  | n + 1 => fsdRow (fsdPass g w h n) n w h w

/-- One output scanline of the grayscale reduction, lines 394-403:
for col stepping by 3 below w*ps, push (b[col]+b[col+1]+b[col+2])/3.
The number of iterations is ceil(w*ps/3) = (w*ps+2)/3. -/
def grayRow (r : List ℕ) (w ps : ℕ) : List ℕ :=
  (List.range ((w * ps + 2) / 3)).map
    (fun i => (r.getD (3 * i) 0 + r.getD (3 * i + 1) 0 + r.getD (3 * i + 2) 0) / 3)

/-- The replication of a mono scanline into three channels, lines 435-446:
for col = 0 .. w-1 push the same value three times. -/
def tripleRow (r : List ℕ) : ℕ → List ℕ
  | 0 => []
  | n + 1 => tripleRow r n ++ [r.getD n 0, r.getD n 0, r.getD n 0]

/-- Image::fsd, lines 384-457: grayscale reduction, in-place
Floyd-Steinberg pass on the mono grid, replication to 3 channels, and the
final member updates (m_pixelSize = 3; m_height and m_width recomputed). -/
def Image.fsd (img : Image) : Image :=
  let g := img.bitmapData.map (fun r => grayRow r img.width img.pixelSize)
  let g2 := fsdPass g img.width img.height img.height
  let d := g2.map (fun r => tripleRow r img.width)
  { bitmapData := d
    pixelSize := 3
    height := d.length
    width := (d.getD 0 []).length / 3 }

/-- Modelled from the spec (claim C2 wording), for comparison with
fsdPixel: the error old - new kept as a signed quantity, each term
error * k / 16 truncated toward zero per term, and the neighbor updates
wrapping mod 256 as uint8_t +=.  This is NOT what the source does: the
source stores the error in a uint8_t first. -/
def fsdPixelSigned (g : Grid) (row col w h : ℕ) : Grid :=
  if col = 0 ∨ col = w - 1 ∨ row = h - 1 then
    set2 g row col 255
  else
    let old := get2 g row col
    let np := fsdQuant old
    let e : ℤ := (old : ℤ) - (np : ℤ)
    let add := fun (v : ℕ) (t : ℤ) => (((v : ℤ) + t) % 256).toNat
    let g1 := set2 g row (col + 1) (add (get2 g row (col + 1)) (Int.tdiv (e * 7) 16))
    let g2 := set2 g1 (row + 1) (col + 1) (add (get2 g1 (row + 1) (col + 1)) (Int.tdiv (e * 1) 16))
    let g3 := set2 g2 (row + 1) col (add (get2 g2 (row + 1) col) (Int.tdiv (e * 5) 16))
    let g4 := set2 g3 (row + 1) (col - 1) (add (get2 g3 (row + 1) (col - 1)) (Int.tdiv (e * 3) 16))
    set2 g4 row col np

/-! ### Palette Floyd-Steinberg ditherer (Image::fsdColor) -/

/-- The fixed 7-entry palette of Image::fsdColor, lines 461-468. -/
def palet : List (List ℕ) :=
  [[0x38, 0x48, 0x8d],
   [0x54, 0x7a, 0x49],
   [0x9f, 0x4b, 0x4e],
   [0x24, 0x29, 0x33],
   [0xc9, 0xd1, 0x68],
   [0xb5, 0x5d, 0x4c],
   [0xd3, 0xdd, 0xe4]]

/-- Component k of palette entry i. -/
def palByte (i k : ℕ) : ℕ := (palet.getD i []).getD k 0

/-- The squared luminance-weighted distance of lines 513-522.  The source
compares sqrtf of these quantities; sqrt is strictly monotone and all
inputs are small integers whose square roots the float math keeps ordered
the same way wherever our theorems use this definition (an exact match
has distance 0 while every other palette entry has positive distance). -/
def distSq (r g b i : ℕ) : ℕ :=
  let dR : ℤ := (r : ℤ) - palByte i 0
  let dG : ℤ := (g : ℤ) - palByte i 1
  let dB : ℤ := (b : ℤ) - palByte i 2
  let rHat : ℕ := (r + palByte i 0) / 2
  if rHat < 128 then
    (2 * dR * dR + 4 * dG * dG + 3 * dB * dB).toNat
  else
    (3 * dR * dR + 4 * dG * dG + 2 * dB * dB).toNat

/-- The nearest-palette-entry search of lines 512-533: scan idxPalet
0..6 keeping (idColor, shortDistance), replacing only on strictly
smaller distance, with the idxPalet = 0 iteration seeding the pair. -/
def nearestColor (r g b : ℕ) : ℕ :=
  ((List.range 7).foldl
    (fun (acc : ℕ × ℕ) i =>
      let d := distSq r g b i
      if i = 0 then (i, d)
      else if acc.2 > d then (i, d) else acc)
    (0, 0)).1

/-- uint8_t += of a possibly negative int summand: wraparound mod 256. -/
def byteAddI (v : ℕ) (t : ℤ) : ℕ := (((v : ℤ) + t) % 256).toNat

/-- One iteration of the fsdColor loop body, lines 501-567, at byte
column col (the source steps col by 3): borders are forced to palet[0];
interior pixels pick the nearest palette entry, diffuse the three signed
per-channel errors per-term (Int.tdiv truncates toward zero like C++ /),
and are overwritten with the chosen entry, in source write order. -/
def fsdColorPixel (g : Grid) (row col w h ps : ℕ) : Grid :=
  if col = 0 ∨ w * ps - ps ≤ col ∨ row = h - 1 then
    set2 (set2 (set2 g row col (palByte 0 0)) row (col + 1) (palByte 0 1))
      row (col + 2) (palByte 0 2)
  else
    let r := get2 g row col
    let gr := get2 g row (col + 1)
    let b := get2 g row (col + 2)
    let idColor := nearestColor r gr b
    let eR : ℤ := (r : ℤ) - palByte idColor 0
    let eG : ℤ := (gr : ℤ) - palByte idColor 1
    let eB : ℤ := (b : ℤ) - palByte idColor 2
    let g1 := set2 g row (col + 3) (byteAddI (get2 g row (col + 3)) (Int.tdiv (eR * 7) 16))
    let g2 := set2 g1 row (col + 4) (byteAddI (get2 g1 row (col + 4)) (Int.tdiv (eG * 7) 16))
    let g3 := set2 g2 row (col + 5) (byteAddI (get2 g2 row (col + 5)) (Int.tdiv (eB * 7) 16))
    let g4 := set2 g3 (row + 1) (col + 3) (byteAddI (get2 g3 (row + 1) (col + 3)) (Int.tdiv (eR * 1) 16))
    let g5 := set2 g4 (row + 1) (col + 4) (byteAddI (get2 g4 (row + 1) (col + 4)) (Int.tdiv (eG * 1) 16))
    let g6 := set2 g5 (row + 1) (col + 5) (byteAddI (get2 g5 (row + 1) (col + 5)) (Int.tdiv (eB * 1) 16))
    let g7 := set2 g6 (row + 1) col (byteAddI (get2 g6 (row + 1) col) (Int.tdiv (eR * 5) 16))
    let g8 := set2 g7 (row + 1) (col + 1) (byteAddI (get2 g7 (row + 1) (col + 1)) (Int.tdiv (eG * 5) 16))
    let g9 := set2 g8 (row + 1) (col + 2) (byteAddI (get2 g8 (row + 1) (col + 2)) (Int.tdiv (eB * 5) 16))
    let g10 := set2 g9 (row + 1) (col - 3) (byteAddI (get2 g9 (row + 1) (col - 3)) (Int.tdiv (eR * 3) 16))
    let g11 := set2 g10 (row + 1) (col + 1 - 3) (byteAddI (get2 g10 (row + 1) (col + 1 - 3)) (Int.tdiv (eG * 3) 16))
    let g12 := set2 g11 (row + 1) (col + 2 - 3) (byteAddI (get2 g11 (row + 1) (col + 2 - 3)) (Int.tdiv (eB * 3) 16))
    set2 (set2 (set2 g12 row col (palByte idColor 0))
      row (col + 1) (palByte idColor 1)) row (col + 2) (palByte idColor 2)

/-- Process the first n pixel groups of one fsdColor row: the source loop
runs col = 0, 3, 6, ... below w*ps, so group j sits at byte column 3*j. -/
def fsdColorRow (g : Grid) (row w h ps : ℕ) : ℕ → Grid
  | 0 => g
  | n + 1 => fsdColorPixel (fsdColorRow g row w h ps n) row (3 * n) w h ps

/-- Process the first n rows of the fsdColor pass; each row visits
ceil(w*ps/3) = (w*ps+2)/3 pixel groups. -/
def fsdColorPass (g : Grid) (w h ps : ℕ) : ℕ → Grid
  | 0 => g
  | n + 1 => fsdColorRow (fsdColorPass g w h ps n) n w h ps ((w * ps + 2) / 3)

/-- Image::fsdColor, lines 459-575: the in-place palette dithering pass
followed by the member updates (m_pixelSize = 3; m_height and m_width
recomputed from the bitmap). -/
def Image.fsdColor (img : Image) : Image :=
  let d := fsdColorPass img.bitmapData img.width img.height img.pixelSize img.height
  { bitmapData := d
    pixelSize := 3
    height := d.length
    width := (d.getD 0 []).length / 3 }

/-! ### getPixel and getAverage -/

/-- Errors reported by the buffer accessors and transforms.  outOfRangeX
and outOfRangeY are the std::out_of_range throws of getPixel; boxWidth
and boxHeight are the std::out_of_range throws of getAverage;
divByZero marks the unsigned division by zero that getAverage hits when
boxSize = 0 (undefined behavior in the C++ source, modeled as an
explicit failure); outOfRange is the std::out_of_range throw of shrink. -/
inductive ImgErr where
  | outOfRangeX
  | outOfRangeY
  | boxWidth
  | boxHeight
  | divByZero
  | outOfRange
deriving DecidableEq

/-- Image::getPixel, lines 199-215: bounds checks against
m_bitmapData.size() and m_bitmapData[0].size() / m_pixelSize, then the
m_pixelSize bytes at x * m_pixelSize + n. -/
def Image.getPixel (img : Image) (x y : ℕ) : Except ImgErr (List ℕ) :=
  if img.bitmapData.length ≤ y then .error .outOfRangeY
  else if (img.bitmapData.getD 0 []).length / img.pixelSize ≤ x then .error .outOfRangeX
  else .ok ((List.range img.pixelSize).map
    (fun n => (img.bitmapData.getD y []).getD (x * img.pixelSize + n) 0))

/-- The anchor clamping of getAverage, lines 245-252: if a + boxSize
would reach past the limit the anchor is moved back to limit - boxSize. -/
def clampAnchor (a boxSize limit : ℕ) : ℕ :=
  if limit ≤ a + boxSize then limit - boxSize else a

/-- Sum of the bytes of channel k over the boxSize x boxSize block with
anchor (x, y): the running totals r, g, b of lines 253-269.  The source
reads them through getPixel, which never throws there because the
clamped box lies inside the buffer. -/
def boxSum (g : Grid) (ps x y boxSize k : ℕ) : ℕ :=
  ((List.range boxSize).map
    (fun dy => ((List.range boxSize).map
      (fun dx => (g.getD (y + dy) []).getD ((x + dx) * ps + k) 0)).sum)).sum

/-- Image::getAverage, lines 234-281: the two box-size range checks, the
anchor clamping, and the per-channel truncated means.  The division by
boxSize * boxSize is undefined in C++ when boxSize = 0 (it passes both
range checks); that case is modeled as the explicit failure divByZero. -/
def Image.getAverage (img : Image) (x y boxSize : ℕ) : Except ImgErr (List ℕ) :=
  if img.width < boxSize then .error .boxWidth
  else if img.height < boxSize then .error .boxHeight
  else
    let x := clampAnchor x boxSize img.width
    let y := clampAnchor y boxSize img.height
    if boxSize = 0 then .error .divByZero
    else .ok
      ([boxSum img.bitmapData img.pixelSize x y boxSize 0 / (boxSize * boxSize)] ++
        (if img.pixelSize = 3 then
          [boxSum img.bitmapData img.pixelSize x y boxSize 1 / (boxSize * boxSize),
           boxSum img.bitmapData img.pixelSize x y boxSize 2 / (boxSize * boxSize)]
         else []))

/-! ### Box-filter shrink (Image::shrink) -/

/-- The running accumulators of Image::shrink, lines 307-309, plus the
output rows collected so far. -/
structure ShrinkSt where
  totals : List ℕ
  counts : List ℕ
  oldRow : ℕ
  out : Grid
deriving DecidableEq

/-- The inner column loop of shrink, lines 312-317, over the first n
byte columns of one source row: idx = floor(scale * col) with the exact
rational scale nw / w, then totals[idx] += data[col]; ++counts[idx]. -/
def accumCols (rowData : List ℕ) (nw w : ℕ) : ℕ → List ℕ × List ℕ → List ℕ × List ℕ
  | 0, tc => tc
  | n + 1, tc =>
      let tc2 := accumCols rowData nw w n tc
      let idx := nw * n / w
      (tc2.1.set idx (tc2.1.getD idx 0 + rowData.getD n 0),
       tc2.2.set idx (tc2.2.getD idx 0 + 1))

/-- The flushed output row of lines 321-328: for i below nw*ps push
totals[i] / counts[i]. -/
def flushLine (t c : List ℕ) (nw ps : ℕ) : List ℕ :=
  (List.range (nw * ps)).map (fun i => t.getD i 0 / c.getD i 0)

/-- One iteration of the shrink row loop, lines 310-331: accumulate all
w*ps byte columns of source row r, then flush and reset whenever the
destination row index floor(scale * r) moved past oldRow. -/
def shrinkRowStep (data : Grid) (nw w ps r : ℕ) (s : ShrinkSt) : ShrinkSt :=
  let tc := accumCols (data.getD r []) nw w (w * ps) (s.totals, s.counts)
  if s.oldRow < nw * r / w then
    { totals := List.replicate (nw * ps) 0
      counts := List.replicate (nw * ps) 0
      oldRow := nw * r / w
      out := s.out ++ [flushLine tc.1 tc.2 nw ps] }
  else
    { totals := tc.1, counts := tc.2, oldRow := s.oldRow, out := s.out }

/-- The shrink row loop over the first n source rows, starting from
zeroed accumulators of size nw*ps (value-initialized vectors). -/
def shrinkRows (data : Grid) (nw w ps : ℕ) : ℕ → ShrinkSt
  | 0 => ⟨List.replicate (nw * ps) 0, List.replicate (nw * ps) 0, 0, []⟩
  | n + 1 => shrinkRowStep data nw w ps n (shrinkRows data nw w ps n)

/-- The main path of Image::shrink, lines 301-334: run the row loop over
all source rows, then replace the bitmap and recompute m_height and
m_width from it. -/
def Image.shrinkCore (img : Image) (nw : ℕ) : Image :=
  let s := shrinkRows img.bitmapData nw img.width img.pixelSize img.height
  { bitmapData := s.out
    pixelSize := img.pixelSize
    height := s.out.length
    width := (s.out.getD 0 []).length / img.pixelSize }

/-- Image::shrink, lines 283-335: early return (no mutation) when
newWidth >= m_width, std::out_of_range when newWidth == 0 (thrown before
any mutation, so the buffer is untouched), otherwise the box-filter
resample. -/
def Image.shrink (img : Image) (nw : ℕ) : Except ImgErr Image :=
  if img.width ≤ nw then .ok img
  else if nw = 0 then .error .outOfRange
  else .ok (img.shrinkCore nw)

/-! ### Concrete inputs used by counterexamples and witnesses -/

/-- A 3x3 three-channel image all of whose samples are 0xFF. -/
def ex255 : Image := ⟨List.replicate 3 (List.replicate 9 255), 3, 3, 3⟩

/-- A 3x3 mono grid all of whose samples are 100. -/
def cgrid : Grid := List.replicate 3 (List.replicate 3 100)

/-- A 4x4 one-channel image of constant sample 10. -/
def shrinkEx : Image := ⟨List.replicate 4 (List.replicate 4 10), 4, 4, 1⟩

/-- A 4x4 three-channel image of constant pixel (100, 200, 50). -/
def c9ex : Image :=
  ⟨List.replicate 4 [100, 200, 50, 100, 200, 50, 100, 200, 50, 100, 200, 50], 4, 4, 3⟩

/-- A 4x4 one-channel image of constant sample 77. -/
def c9u : Image := ⟨List.replicate 4 (List.replicate 4 77), 4, 4, 1⟩

/-- A 1x1 one-channel image. -/
def avgEx : Image := ⟨[[5]], 1, 1, 1⟩

/-- A 3x3-pixel grid whose middle pixel is palette entry 2 and whose
other bytes are 7. -/
def g6 : Grid :=
  [List.replicate 9 7, [7, 7, 7, 0x9f, 0x4b, 0x4e, 7, 7, 7], List.replicate 9 7]

/-- A 4x3-pixel three-channel grid of constant byte 100. -/
def cwide : Grid := List.replicate 3 (List.replicate 12 100)

/-- A 3x3 three-channel image of constant byte 100. -/
def c10ex : Image := ⟨List.replicate 3 (List.replicate 9 100), 3, 3, 3⟩

/-! ### Invariant grids describing the fsd pass on an all-zero input -/

/-- A mono row whose first c samples are 255 and whose remaining w - c
samples are 0. -/
def Rmix (w c : ℕ) : List ℕ :=
  List.replicate c 255 ++ List.replicate (w - c) 0

/-- The grid midway through the fsd pass on an all-zero w x h input:
rows before r are all 255, row r is 255 up to column c, and the rows
after r are still all 0. -/
def Gmix (w h r c : ℕ) : Grid :=
  List.replicate r (List.replicate w 255) ++
    Rmix w c :: List.replicate (h - r - 1) (List.replicate w 0)

/-- The grid between fsd rows on an all-zero w x h input: the first k
rows are all 255 and the remaining h - k rows are all 0. -/
def Hmix (w h k : ℕ) : Grid :=
  List.replicate k (List.replicate w 255) ++
    List.replicate (h - k) (List.replicate w 0)

/-! ### C1 -/

/-- C1 counterexample: dithering the all-0xFF 3x3 buffer does NOT give an
all-white output: since 255 > 128 the interior pixel quantizes to 0x00,
so output byte 3 of row 0 is 0, not 0xFF. -/
theorem fsd_all255_not_all_white :
    ((Image.fsd ex255).bitmapData.getD 0 []).getD 3 0 ≠ 255 := by decide

/-! ### C8 -/

/-- C8: shrink is a no-op returning the untouched buffer when the
requested width is at least the current width, and it fails with
out_of_range when the requested width is zero while the current width is
positive; the throw happens before any mutation, which the embedding
reflects by the error carrying no buffer at all. -/
theorem shrink_noop_and_zero_fails (img : Image) (nw : ℕ) :
    (img.width ≤ nw → Image.shrink img nw = .ok img) ∧
    (nw = 0 → 0 < img.width → Image.shrink img nw = .error .outOfRange) := by
  constructor
  · intro h
    simp [Image.shrink, h]
  · intro h0 hw
    subst h0
    have hlt : ¬ img.width ≤ 0 := by omega
    simp [Image.shrink, hlt]

/-- C8 witness at a concrete 1x1 buffer. -/
theorem shrink_noop_and_zero_fails_w :
    Image.shrink avgEx 1 = .ok avgEx ∧
    Image.shrink avgEx 0 = .error .outOfRange :=
  ⟨(shrink_noop_and_zero_fails avgEx 1).1 (by decide),
   (shrink_noop_and_zero_fails avgEx 0).2 rfl (by decide)⟩

/-! ### C7 -/

/-- C7 counterexample: boxSize = 0 exceeds neither the width nor the
height of the 1x1 buffer, yet getAverage does not succeed: it reaches
the division by boxSize * boxSize = 0 (undefined behavior in the C++
source, an explicit failure in the model). -/
theorem getAverage_boxZero_no_success :
    Image.getAverage avgEx 0 0 0 = .error .divByZero ∧
    ¬ avgEx.width < 0 ∧ ¬ avgEx.height < 0 :=
  ⟨rfl, by decide⟩

/-- C7 (amended): getAverage fails with the box range errors exactly when
boxSize exceeds the width (checked first) or the height; whenever
boxSize also is at least 1 it succeeds, and the clamped anchor keeps the
whole box inside the buffer. -/
theorem getAverage_range_checks (img : Image) (x y bs : ℕ) :
    (img.width < bs → img.getAverage x y bs = .error .boxWidth) ∧
    (bs ≤ img.width → img.height < bs → img.getAverage x y bs = .error .boxHeight) ∧
    (bs ≤ img.width → bs ≤ img.height → 1 ≤ bs →
      (img.getAverage x y bs).toOption.isSome = true ∧
      clampAnchor x bs img.width + bs ≤ img.width ∧
      clampAnchor y bs img.height + bs ≤ img.height) := by
  refine ⟨?_, ?_, ?_⟩
  · intro h
    simp [Image.getAverage, h]
  · intro h1 h2
    simp [Image.getAverage, Nat.not_lt.mpr h1, h2]
  · intro h1 h2 h3
    have hbs : bs ≠ 0 := by omega
    refine ⟨?_, ?_, ?_⟩
    · simp [Image.getAverage, Nat.not_lt.mpr h1, Nat.not_lt.mpr h2, hbs, Except.toOption]
    · unfold clampAnchor
      split <;> omega
    · unfold clampAnchor
      split <;> omega

/-- C7 amended witness: a too-large box on the 1x1 buffer fails with the
width error, and a 1x1 box on it succeeds with the box inside. -/
theorem getAverage_range_checks_w :
    Image.getAverage avgEx 0 0 5 = .error .boxWidth ∧
    ((Image.getAverage avgEx 0 0 1).toOption.isSome = true ∧
      clampAnchor 0 1 avgEx.width + 1 ≤ avgEx.width ∧
      clampAnchor 0 1 avgEx.height + 1 ≤ avgEx.height) :=
  ⟨(getAverage_range_checks avgEx 0 0 5).1 (by decide),
   (getAverage_range_checks avgEx 0 0 1).2.2 (by decide) (by decide) (by decide)⟩

/-! ### C4 -/

/-- C4: in the monochrome ditherer, an interior pixel (not first column,
not last column, not last row) whose pre-quantization value is old ends
the loop body holding 0xFF when old <= 128 and 0x00 otherwise (that is,
when old >= 129): the inverted polarity of line 420. -/
theorem fsd_interior_quant (g : Grid) (row col w h : ℕ)
    (h0 : col ≠ 0) (h1 : col ≠ w - 1) (h2 : row ≠ h - 1)
    (hr : row < g.length) (hc : col < (g.getD row []).length) :
    get2 (fsdPixel g row col w h) row col =
      if get2 g row col ≤ 128 then 255 else 0 := by
  unfold fsdPixel
  rw [if_neg (by tauto)]
  rw [get2_set2_self]
  · rfl
  · simp only [set2_length]
    exact hr
  · simp only [set2_rowlen]
    exact hc

/-- C4 witness: the interior pixel of the all-100 3x3 grid quantizes to
0xFF (100 <= 128). -/
theorem fsd_interior_quant_w :
    get2 (fsdPixel cgrid 1 1 3 3) 1 1 =
      if get2 cgrid 1 1 ≤ 128 then 255 else 0 :=
  fsd_interior_quant cgrid 1 1 3 3 (by decide) (by decide) (by decide)
    (by decide) (by decide)

/-! ### C2 -/

/-- C2 counterexample: the monochrome loop body does NOT diffuse a signed
error.  On the all-100 3x3 grid the interior pixel has old = 100,
new = 0xFF, and the source stores the error in a uint8_t, so the right
neighbor receives (100 - 255 mod 256) * 7 / 16 = 44 instead of the
signed trunc((100 - 255) * 7 / 16) = -67 mod 256 = 189: the two loop
bodies produce different grids. -/
theorem fsd_error_not_signed :
    fsdPixel cgrid 1 1 3 3 ≠ fsdPixelSigned cgrid 1 1 3 3 := by decide

/-! ### C3 -/

/-- C3 counterexample: shrinking the 4x4 buffer to width 2 (scale 1/2,
destination row indices 0,0,1,1 with two distinct values, and
trunc(scale * height) = 2) emits only ONE row: the final destination
row group is accumulated but never flushed. -/
theorem shrink_last_group_dropped :
    (Image.shrink shrinkEx 2).toOption.map Image.height = some 1 ∧
    2 * shrinkEx.height / shrinkEx.width ≠ 1 := by decide

/-! ### C9 -/

/-- C9 counterexample: shrinking the uniform 3-channel buffer of pixel
(100, 200, 50) to width 2 mixes channels, because the per-byte column
index floor(scale * col) ignores channel interleaving: the first output
byte is (100 + 200 + ...) averaged across R and G, namely 150, not the
original R value 100. -/
theorem shrink_uniform_color_not_preserved :
    (Image.shrink c9ex 2).toOption.map
      (fun i => (i.bitmapData.getD 0 []).getD 0 0) = some 150 ∧
    (150 : ℕ) ≠ 100 := by decide

/-! ### C6 -/

/-- Adding 0 modulo 256 to a stored byte leaves it unchanged. -/
theorem byteAddI_zero (v : ℕ) (hv : v < 256) : byteAddI v 0 = v := by
  unfold byteAddI
  omega

/-- Diffusing a zero error term into a well-formed grid is the identity. -/
theorem set2_byteAddI_zero {g : Grid} (hg : Grid.Bytes g) (r c : ℕ) :
    set2 g r c (byteAddI (get2 g r c) 0) = g := by
  rw [byteAddI_zero _ (get2_lt_of_bytes hg r c), set2_get2_self]

/-- C6: in the palette ditherer, an interior pixel whose current RGB
value equals palette entry i is selected by the nearest-color search
(distance 0 beats every other entry under the strict comparison), the
per-channel error is zero, and the whole loop body leaves the grid
unchanged: nothing is diffused to any neighbor. -/
theorem fsdColor_exact_match (g : Grid) (row col w h i : ℕ)
    (hg : Grid.Bytes g)
    (hb : ¬(col = 0 ∨ w * 3 - 3 ≤ col ∨ row = h - 1))
    (hi : i < 7)
    (hR : get2 g row col = palByte i 0)
    (hG : get2 g row (col + 1) = palByte i 1)
    (hB : get2 g row (col + 2) = palByte i 2) :
    nearestColor (get2 g row col) (get2 g row (col + 1)) (get2 g row (col + 2)) = i ∧
    fsdColorPixel g row col w h 3 = g := by
  have hn2 : nearestColor (palByte i 0) (palByte i 1) (palByte i 2) = i := by
    interval_cases i <;> decide
  constructor
  · rw [hR, hG, hB, hn2]
  · simp only [fsdColorPixel, if_neg hb]
    rw [hR, hG, hB, hn2]
    simp only [sub_self, zero_mul, Int.zero_tdiv, set2_byteAddI_zero hg]
    rw [← hR, ← hG, ← hB]
    simp only [set2_get2_self]

/-- C6 witness: the middle pixel of g6 equals palette entry 2; the search
picks index 2 and the loop body is the identity on the grid. -/
theorem fsdColor_exact_match_w :
    nearestColor (get2 g6 1 3) (get2 g6 1 4) (get2 g6 1 5) = 2 ∧
    fsdColorPixel g6 1 3 3 3 3 = g6 :=
  fsdColor_exact_match g6 1 3 3 3 2 (by unfold Grid.Bytes; decide) (by decide)
    (by decide) (by decide) (by decide) (by decide)

/-- The four neighbor updates of one interior fsd loop body: each
neighbor receives its own term (wrapped error) * weight / 16, divided
independently, on top of its previous value. -/
theorem fsdPixel_interior_updates (g : Grid) (row col w h : ℕ)
    (h0 : col ≠ 0) (h1 : col ≠ w - 1) (h2 : row ≠ h - 1)
    (hr : row + 1 < g.length)
    (hc : col + 1 < (g.getD row []).length)
    (hc2 : col + 1 < (g.getD (row + 1) []).length) :
    get2 (fsdPixel g row col w h) row (col + 1) =
      byteAdd (get2 g row (col + 1))
        (fsdErr (get2 g row col) (fsdQuant (get2 g row col)) * 7 / 16) ∧
    get2 (fsdPixel g row col w h) (row + 1) (col + 1) =
      byteAdd (get2 g (row + 1) (col + 1))
        (fsdErr (get2 g row col) (fsdQuant (get2 g row col)) * 1 / 16) ∧
    get2 (fsdPixel g row col w h) (row + 1) col =
      byteAdd (get2 g (row + 1) col)
        (fsdErr (get2 g row col) (fsdQuant (get2 g row col)) * 5 / 16) ∧
    get2 (fsdPixel g row col w h) (row + 1) (col - 1) =
      byteAdd (get2 g (row + 1) (col - 1))
        (fsdErr (get2 g row col) (fsdQuant (get2 g row col)) * 3 / 16) := by
  have interior : ¬ (col = 0 ∨ col = w - 1 ∨ row = h - 1) := by tauto
  have n1 : ¬ (row + 1 = row) := by omega
  have n2 : ¬ (row = row + 1) := by omega
  have n3 : ¬ (col = col + 1) := by omega
  have n4 : ¬ (col + 1 = col) := by omega
  have n5 : ¬ (col - 1 = col) := by omega
  have n6 : ¬ (col = col - 1) := by omega
  have n7 : ¬ (col - 1 = col + 1) := by omega
  have n8 : ¬ (col + 1 = col - 1) := by omega
  have r0 : row < g.length := by omega
  have c0 : col < (g.getD row []).length := by omega
  have c0b : col < (g.getD (row + 1) []).length := by omega
  have cm : col - 1 < (g.getD (row + 1) []).length := by omega
  refine ⟨?_, ?_, ?_, ?_⟩ <;>
    simp only [fsdPixel, if_neg interior, get2_set2_ne, get2_set2_self,
      set2_length, set2_rowlen, n1, n2, n3, n4, n5, n6, n7, n8,
      r0, c0, c0b, cm, hr, hc, hc2, ne_eq, not_false_iff, mul_one,
      Nat.mul_one, or_true, true_or]

/-- The twelve neighbor updates of one interior fsdColor loop body
(pixelSize 3): each of the three channels diffuses its own signed error
old - chosen through the four weights, each term truncated toward zero
independently by Int.tdiv, on top of the neighbor byte (mod 256). -/
theorem fsdColorPixel_interior_updates (g : Grid) (row col w h : ℕ)
    (hb : ¬ (col = 0 ∨ w * 3 - 3 ≤ col ∨ row = h - 1))
    (h3 : 3 ≤ col)
    (hr : row + 1 < g.length)
    (hc : col + 5 < (g.getD row []).length)
    (hc2 : col + 5 < (g.getD (row + 1) []).length) :
    get2 (fsdColorPixel g row col w h 3) row (col + 3) =
      byteAddI (get2 g row (col + 3))
        (Int.tdiv (((get2 g row col : ℤ) -
          (palByte (nearestColor (get2 g row col) (get2 g row (col + 1)) (get2 g row (col + 2))) 0 : ℕ)) * 7) 16) ∧
    get2 (fsdColorPixel g row col w h 3) row (col + 4) =
      byteAddI (get2 g row (col + 4))
        (Int.tdiv (((get2 g row (col + 1) : ℤ) -
          (palByte (nearestColor (get2 g row col) (get2 g row (col + 1)) (get2 g row (col + 2))) 1 : ℕ)) * 7) 16) ∧
    get2 (fsdColorPixel g row col w h 3) row (col + 5) =
      byteAddI (get2 g row (col + 5))
        (Int.tdiv (((get2 g row (col + 2) : ℤ) -
          (palByte (nearestColor (get2 g row col) (get2 g row (col + 1)) (get2 g row (col + 2))) 2 : ℕ)) * 7) 16) ∧
    get2 (fsdColorPixel g row col w h 3) (row + 1) (col + 3) =
      byteAddI (get2 g (row + 1) (col + 3))
        (Int.tdiv (((get2 g row col : ℤ) -
          (palByte (nearestColor (get2 g row col) (get2 g row (col + 1)) (get2 g row (col + 2))) 0 : ℕ)) * 1) 16) ∧
    get2 (fsdColorPixel g row col w h 3) (row + 1) (col + 4) =
      byteAddI (get2 g (row + 1) (col + 4))
        (Int.tdiv (((get2 g row (col + 1) : ℤ) -
          (palByte (nearestColor (get2 g row col) (get2 g row (col + 1)) (get2 g row (col + 2))) 1 : ℕ)) * 1) 16) ∧
    get2 (fsdColorPixel g row col w h 3) (row + 1) (col + 5) =
      byteAddI (get2 g (row + 1) (col + 5))
        (Int.tdiv (((get2 g row (col + 2) : ℤ) -
          (palByte (nearestColor (get2 g row col) (get2 g row (col + 1)) (get2 g row (col + 2))) 2 : ℕ)) * 1) 16) ∧
    get2 (fsdColorPixel g row col w h 3) (row + 1) col =
      byteAddI (get2 g (row + 1) col)
        (Int.tdiv (((get2 g row col : ℤ) -
          (palByte (nearestColor (get2 g row col) (get2 g row (col + 1)) (get2 g row (col + 2))) 0 : ℕ)) * 5) 16) ∧
    get2 (fsdColorPixel g row col w h 3) (row + 1) (col + 1) =
      byteAddI (get2 g (row + 1) (col + 1))
        (Int.tdiv (((get2 g row (col + 1) : ℤ) -
          (palByte (nearestColor (get2 g row col) (get2 g row (col + 1)) (get2 g row (col + 2))) 1 : ℕ)) * 5) 16) ∧
    get2 (fsdColorPixel g row col w h 3) (row + 1) (col + 2) =
      byteAddI (get2 g (row + 1) (col + 2))
        (Int.tdiv (((get2 g row (col + 2) : ℤ) -
          (palByte (nearestColor (get2 g row col) (get2 g row (col + 1)) (get2 g row (col + 2))) 2 : ℕ)) * 5) 16) ∧
    get2 (fsdColorPixel g row col w h 3) (row + 1) (col - 3) =
      byteAddI (get2 g (row + 1) (col - 3))
        (Int.tdiv (((get2 g row col : ℤ) -
          (palByte (nearestColor (get2 g row col) (get2 g row (col + 1)) (get2 g row (col + 2))) 0 : ℕ)) * 3) 16) ∧
    get2 (fsdColorPixel g row col w h 3) (row + 1) (col + 1 - 3) =
      byteAddI (get2 g (row + 1) (col + 1 - 3))
        (Int.tdiv (((get2 g row (col + 1) : ℤ) -
          (palByte (nearestColor (get2 g row col) (get2 g row (col + 1)) (get2 g row (col + 2))) 1 : ℕ)) * 3) 16) ∧
    get2 (fsdColorPixel g row col w h 3) (row + 1) (col + 2 - 3) =
      byteAddI (get2 g (row + 1) (col + 2 - 3))
        (Int.tdiv (((get2 g row (col + 2) : ℤ) -
          (palByte (nearestColor (get2 g row col) (get2 g row (col + 1)) (get2 g row (col + 2))) 2 : ℕ)) * 3) 16) := by
  have n1 : ¬ (row + 1 = row) := by omega
  have n2 : ¬ (row = row + 1) := by omega
  have p01 : ¬ (col = col + 1) := by omega
  have p02 : ¬ (col = col + 2) := by omega
  have p03 : ¬ (col = col + 3) := by omega
  have p04 : ¬ (col = col + 4) := by omega
  have p05 : ¬ (col = col + 5) := by omega
  have p10 : ¬ (col + 1 = col) := by omega
  have p12 : ¬ (col + 1 = col + 2) := by omega
  have p13 : ¬ (col + 1 = col + 3) := by omega
  have p14 : ¬ (col + 1 = col + 4) := by omega
  have p15 : ¬ (col + 1 = col + 5) := by omega
  have p20 : ¬ (col + 2 = col) := by omega
  have p21 : ¬ (col + 2 = col + 1) := by omega
  have p23 : ¬ (col + 2 = col + 3) := by omega
  have p24 : ¬ (col + 2 = col + 4) := by omega
  have p25 : ¬ (col + 2 = col + 5) := by omega
  have p30 : ¬ (col + 3 = col) := by omega
  have p31 : ¬ (col + 3 = col + 1) := by omega
  have p32 : ¬ (col + 3 = col + 2) := by omega
  have p34 : ¬ (col + 3 = col + 4) := by omega
  have p35 : ¬ (col + 3 = col + 5) := by omega
  have p40 : ¬ (col + 4 = col) := by omega
  have p41 : ¬ (col + 4 = col + 1) := by omega
  have p42 : ¬ (col + 4 = col + 2) := by omega
  have p43 : ¬ (col + 4 = col + 3) := by omega
  have p45 : ¬ (col + 4 = col + 5) := by omega
  have p50 : ¬ (col + 5 = col) := by omega
  have p51 : ¬ (col + 5 = col + 1) := by omega
  have p52 : ¬ (col + 5 = col + 2) := by omega
  have p53 : ¬ (col + 5 = col + 3) := by omega
  have p54 : ¬ (col + 5 = col + 4) := by omega
  have m00 : ¬ (col - 3 = col) := by omega
  have m01 : ¬ (col - 3 = col + 1) := by omega
  have m02 : ¬ (col - 3 = col + 2) := by omega
  have m03 : ¬ (col - 3 = col + 3) := by omega
  have m04 : ¬ (col - 3 = col + 4) := by omega
  have m05 : ¬ (col - 3 = col + 5) := by omega
  have m10 : ¬ (col + 1 - 3 = col) := by omega
  have m11 : ¬ (col + 1 - 3 = col + 1) := by omega
  have m12 : ¬ (col + 1 - 3 = col + 2) := by omega
  have m13 : ¬ (col + 1 - 3 = col + 3) := by omega
  have m14 : ¬ (col + 1 - 3 = col + 4) := by omega
  have m15 : ¬ (col + 1 - 3 = col + 5) := by omega
  have m20 : ¬ (col + 2 - 3 = col) := by omega
  have m21 : ¬ (col + 2 - 3 = col + 1) := by omega
  have m22 : ¬ (col + 2 - 3 = col + 2) := by omega
  have m23 : ¬ (col + 2 - 3 = col + 3) := by omega
  have m24 : ¬ (col + 2 - 3 = col + 4) := by omega
  have m25 : ¬ (col + 2 - 3 = col + 5) := by omega
  have w00 : ¬ (col = col - 3) := by omega
  have w01 : ¬ (col = col + 1 - 3) := by omega
  have w02 : ¬ (col = col + 2 - 3) := by omega
  have w10 : ¬ (col + 1 = col - 3) := by omega
  have w11 : ¬ (col + 1 = col + 1 - 3) := by omega
  have w12 : ¬ (col + 1 = col + 2 - 3) := by omega
  have w20 : ¬ (col + 2 = col - 3) := by omega
  have w21 : ¬ (col + 2 = col + 1 - 3) := by omega
  have w22 : ¬ (col + 2 = col + 2 - 3) := by omega
  have w30 : ¬ (col + 3 = col - 3) := by omega
  have w31 : ¬ (col + 3 = col + 1 - 3) := by omega
  have w32 : ¬ (col + 3 = col + 2 - 3) := by omega
  have w40 : ¬ (col + 4 = col - 3) := by omega
  have w41 : ¬ (col + 4 = col + 1 - 3) := by omega
  have w42 : ¬ (col + 4 = col + 2 - 3) := by omega
  have w50 : ¬ (col + 5 = col - 3) := by omega
  have w51 : ¬ (col + 5 = col + 1 - 3) := by omega
  have w52 : ¬ (col + 5 = col + 2 - 3) := by omega
  have u01 : ¬ (col - 3 = col + 1 - 3) := by omega
  have u02 : ¬ (col - 3 = col + 2 - 3) := by omega
  have u10 : ¬ (col + 1 - 3 = col - 3) := by omega
  have u12 : ¬ (col + 1 - 3 = col + 2 - 3) := by omega
  have u20 : ¬ (col + 2 - 3 = col - 3) := by omega
  have u21 : ¬ (col + 2 - 3 = col + 1 - 3) := by omega
  have r0 : row < g.length := by omega
  have q1 : col + 3 < (g.getD row []).length := by omega
  have q2 : col + 4 < (g.getD row []).length := by omega
  have q4 : col + 3 < (g.getD (row + 1) []).length := by omega
  have q5 : col + 4 < (g.getD (row + 1) []).length := by omega
  have q7 : col < (g.getD (row + 1) []).length := by omega
  have q8 : col + 1 < (g.getD (row + 1) []).length := by omega
  have q9 : col + 2 < (g.getD (row + 1) []).length := by omega
  have q10 : col - 3 < (g.getD (row + 1) []).length := by omega
  have q11 : col + 1 - 3 < (g.getD (row + 1) []).length := by omega
  have q12 : col + 2 - 3 < (g.getD (row + 1) []).length := by omega
  refine ⟨?_, ?_, ?_, ?_, ?_, ?_, ?_, ?_, ?_, ?_, ?_, ?_⟩ <;>
    simp only [fsdColorPixel, if_neg hb, get2_set2_ne, get2_set2_self,
      set2_length, set2_rowlen, n1, n2,
      p01, p02, p03, p04, p05, p10, p12, p13, p14, p15,
      p20, p21, p23, p24, p25, p30, p31, p32, p34, p35,
      p40, p41, p42, p43, p45, p50, p51, p52, p53, p54,
      m00, m01, m02, m03, m04, m05, m10, m11, m12, m13, m14, m15,
      m20, m21, m22, m23, m24, m25,
      w00, w01, w02, w10, w11, w12, w20, w21, w22,
      w30, w31, w32, w40, w41, w42, w50, w51, w52,
      u01, u02, u10, u12, u20, u21,
      r0, hr, hc, hc2, q1, q2, q4, q5, q7, q8, q9, q10, q11, q12,
      ne_eq, not_false_iff, mul_one, Nat.mul_one, or_true, true_or]

/-- C2 (amended): the palette ditherer computes each per-channel error
old - chosen as a signed quantity and each of the four Floyd-Steinberg
terms independently as error * weight / 16 with truncation toward zero
per term; the monochrome ditherer also computes the four terms
independently with per-term truncating division, but its error old - new
is first wrapped into an unsigned byte (uint8_t), so negative errors are
not carried as signed values there. -/
theorem fs_terms_per_term :
    (∀ (g : Grid) (row col w h : ℕ),
      col ≠ 0 → col ≠ w - 1 → row ≠ h - 1 →
      row + 1 < g.length →
      col + 1 < (g.getD row []).length →
      col + 1 < (g.getD (row + 1) []).length →
      get2 (fsdPixel g row col w h) row (col + 1) =
        byteAdd (get2 g row (col + 1))
          (fsdErr (get2 g row col) (fsdQuant (get2 g row col)) * 7 / 16) ∧
      get2 (fsdPixel g row col w h) (row + 1) (col + 1) =
        byteAdd (get2 g (row + 1) (col + 1))
          (fsdErr (get2 g row col) (fsdQuant (get2 g row col)) * 1 / 16) ∧
      get2 (fsdPixel g row col w h) (row + 1) col =
        byteAdd (get2 g (row + 1) col)
          (fsdErr (get2 g row col) (fsdQuant (get2 g row col)) * 5 / 16) ∧
      get2 (fsdPixel g row col w h) (row + 1) (col - 1) =
        byteAdd (get2 g (row + 1) (col - 1))
          (fsdErr (get2 g row col) (fsdQuant (get2 g row col)) * 3 / 16)) ∧
    (∀ (g : Grid) (row col w h : ℕ),
      ¬ (col = 0 ∨ w * 3 - 3 ≤ col ∨ row = h - 1) →
      3 ≤ col →
      row + 1 < g.length →
      col + 5 < (g.getD row []).length →
      col + 5 < (g.getD (row + 1) []).length →
      get2 (fsdColorPixel g row col w h 3) row (col + 3) =
        byteAddI (get2 g row (col + 3))
          (Int.tdiv (((get2 g row col : ℤ) -
            (palByte (nearestColor (get2 g row col) (get2 g row (col + 1)) (get2 g row (col + 2))) 0 : ℕ)) * 7) 16) ∧
      get2 (fsdColorPixel g row col w h 3) (row + 1) col =
        byteAddI (get2 g (row + 1) col)
          (Int.tdiv (((get2 g row col : ℤ) -
            (palByte (nearestColor (get2 g row col) (get2 g row (col + 1)) (get2 g row (col + 2))) 0 : ℕ)) * 5) 16) ∧
      get2 (fsdColorPixel g row col w h 3) (row + 1) (col - 3) =
        byteAddI (get2 g (row + 1) (col - 3))
          (Int.tdiv (((get2 g row col : ℤ) -
            (palByte (nearestColor (get2 g row col) (get2 g row (col + 1)) (get2 g row (col + 2))) 0 : ℕ)) * 3) 16) ∧
      get2 (fsdColorPixel g row col w h 3) (row + 1) (col + 3) =
        byteAddI (get2 g (row + 1) (col + 3))
          (Int.tdiv (((get2 g row col : ℤ) -
            (palByte (nearestColor (get2 g row col) (get2 g row (col + 1)) (get2 g row (col + 2))) 0 : ℕ)) * 1) 16) ∧
      get2 (fsdColorPixel g row col w h 3) row (col + 4) =
        byteAddI (get2 g row (col + 4))
          (Int.tdiv (((get2 g row (col + 1) : ℤ) -
            (palByte (nearestColor (get2 g row col) (get2 g row (col + 1)) (get2 g row (col + 2))) 1 : ℕ)) * 7) 16) ∧
      get2 (fsdColorPixel g row col w h 3) row (col + 5) =
        byteAddI (get2 g row (col + 5))
          (Int.tdiv (((get2 g row (col + 2) : ℤ) -
            (palByte (nearestColor (get2 g row col) (get2 g row (col + 1)) (get2 g row (col + 2))) 2 : ℕ)) * 7) 16)) := by
  constructor
  · intro g row col w h h0 h1 h2 hr hc hc2
    exact fsdPixel_interior_updates g row col w h h0 h1 h2 hr hc hc2
  · intro g row col w h hb h3 hr hc hc2
    have big := fsdColorPixel_interior_updates g row col w h hb h3 hr hc hc2
    exact ⟨big.1, big.2.2.2.2.2.2.1, big.2.2.2.2.2.2.2.2.2.1, big.2.2.2.1,
      big.2.1, big.2.2.1⟩

/-- C2 amended witness: the updates at a concrete interior pixel of the
all-100 mono grid and of a concrete 4x3-pixel color grid. -/
theorem fs_terms_per_term_w :
    (get2 (fsdPixel cgrid 1 1 3 3) 1 2 =
      byteAdd (get2 cgrid 1 2)
        (fsdErr (get2 cgrid 1 1) (fsdQuant (get2 cgrid 1 1)) * 7 / 16) ∧
     get2 (fsdPixel cgrid 1 1 3 3) 2 2 =
      byteAdd (get2 cgrid 2 2)
        (fsdErr (get2 cgrid 1 1) (fsdQuant (get2 cgrid 1 1)) * 1 / 16) ∧
     get2 (fsdPixel cgrid 1 1 3 3) 2 1 =
      byteAdd (get2 cgrid 2 1)
        (fsdErr (get2 cgrid 1 1) (fsdQuant (get2 cgrid 1 1)) * 5 / 16) ∧
     get2 (fsdPixel cgrid 1 1 3 3) 2 0 =
      byteAdd (get2 cgrid 2 0)
        (fsdErr (get2 cgrid 1 1) (fsdQuant (get2 cgrid 1 1)) * 3 / 16)) ∧
    get2 (fsdColorPixel cwide 1 3 4 3 3) 1 6 =
      byteAddI (get2 cwide 1 6)
        (Int.tdiv (((get2 cwide 1 3 : ℤ) -
          (palByte (nearestColor (get2 cwide 1 3) (get2 cwide 1 4) (get2 cwide 1 5)) 0 : ℕ)) * 7) 16) :=
  ⟨fs_terms_per_term.1 cgrid 1 1 3 3 (by decide) (by decide) (by decide)
      (by decide) (by decide) (by decide),
   (fs_terms_per_term.2 cwide 1 3 4 3 (by decide) (by decide) (by decide)
      (by decide) (by decide)).1⟩

/-! ### Shape preservation and persistence through the fsd pass -/

theorem fsdPixel_length (g : Grid) (row col w h : ℕ) :
    (fsdPixel g row col w h).length = g.length := by
  unfold fsdPixel
  split <;> simp [set2_length]

theorem fsdPixel_rowlen (g : Grid) (row col w h r : ℕ) :
    ((fsdPixel g row col w h).getD r []).length = (g.getD r []).length := by
  unfold fsdPixel
  split <;> simp only [set2_rowlen]

theorem fsdRow_length (g : Grid) (row w h : ℕ) :
    ∀ n, (fsdRow g row w h n).length = g.length := by
  intro n
  induction n with
  | zero => rfl
  | succ m ih => rw [fsdRow, fsdPixel_length, ih]

theorem fsdRow_rowlen (g : Grid) (row w h r : ℕ) :
    ∀ n, ((fsdRow g row w h n).getD r []).length = (g.getD r []).length := by
  intro n
  induction n with
  | zero => rfl
  | succ m ih => rw [fsdRow, fsdPixel_rowlen, ih]

theorem fsdPass_length (g : Grid) (w h : ℕ) :
    ∀ n, (fsdPass g w h n).length = g.length := by
  intro n
  induction n with
  | zero => rfl
  | succ m ih => rw [fsdPass, fsdRow_length, ih]

theorem fsdPass_rowlen (g : Grid) (w h r : ℕ) :
    ∀ n, ((fsdPass g w h n).getD r []).length = (g.getD r []).length := by
  intro n
  induction n with
  | zero => rfl
  | succ m ih => rw [fsdPass, fsdRow_rowlen, ih]

/-- The fsd loop body never writes to a position strictly before the
visited pixel in raster order. -/
theorem get2_fsdPixel_of_lt (g : Grid) (row col w h r c : ℕ)
    (hlt : r < row ∨ (r = row ∧ c < col)) :
    get2 (fsdPixel g row col w h) r c = get2 g r c := by
  unfold fsdPixel
  rcases hlt with hlt | ⟨rfl, hcc⟩
  · have a1 : ¬ (row = r) := by omega
    have a2 : ¬ (row + 1 = r) := by omega
    split <;>
      simp only [get2_set2_ne, a1, a2, ne_eq, not_false_iff, true_or]
  · have b1 : ¬ (r + 1 = r) := by omega
    have b2 : ¬ (col = c) := by omega
    have b3 : ¬ (col + 1 = c) := by omega
    split <;>
      simp only [get2_set2_ne, b1, b2, b3, ne_eq, not_false_iff,
        true_or, or_true]

/-- Rows before the visited row are untouched by an fsd row pass. -/
theorem get2_fsdRow_of_lt_row (g : Grid) (row w h r c : ℕ) (hr : r < row) :
    ∀ n, get2 (fsdRow g row w h n) r c = get2 g r c := by
  intro n
  induction n with
  | zero => rfl
  | succ m ih =>
      rw [fsdRow, get2_fsdPixel_of_lt _ _ _ _ _ _ _ (Or.inl hr), ih]

/-- Once a column of the visited row has been processed, the rest of the
row pass leaves it unchanged. -/
theorem get2_fsdRow_stable (g : Grid) (row w h c : ℕ) :
    ∀ n, c < n →
      get2 (fsdRow g row w h n) row c = get2 (fsdRow g row w h (c + 1)) row c := by
  intro n
  induction n with
  | zero => omega
  | succ m ih =>
      intro hn
      by_cases hcm : c = m
      · subst hcm; rfl
      · have hlt : c < m := by omega
        rw [fsdRow, get2_fsdPixel_of_lt _ _ _ _ _ _ _ (Or.inr ⟨rfl, hlt⟩), ih hlt]

/-- Once a row has been processed, the rest of the fsd pass leaves it
unchanged. -/
theorem get2_fsdPass_stable (g : Grid) (w h row c : ℕ) :
    ∀ m, row < m →
      get2 (fsdPass g w h m) row c = get2 (fsdPass g w h (row + 1)) row c := by
  intro m
  induction m with
  | zero => omega
  | succ k ih =>
      intro hm
      by_cases hrk : row = k
      · subst hrk; rfl
      · have hlt : row < k := by omega
        rw [fsdPass, get2_fsdRow_of_lt_row _ _ _ _ _ _ hlt, ih hlt]

/-- A border pixel is written to 0xFF by its own loop iteration. -/
theorem get2_fsdPixel_border (g : Grid) (row col w h : ℕ)
    (hb : col = 0 ∨ col = w - 1 ∨ row = h - 1)
    (hr : row < g.length) (hc : col < (g.getD row []).length) :
    get2 (fsdPixel g row col w h) row col = 255 := by
  unfold fsdPixel
  rw [if_pos hb]
  exact get2_set2_self _ _ _ _ hr hc

/-- After the whole fsd pass, every border position of the mono grid
holds 0xFF. -/
theorem fsdPass_border_white (g : Grid) (w h row col : ℕ)
    (hrow : row < h) (hcol : col < w)
    (hb : col = 0 ∨ col = w - 1 ∨ row = h - 1)
    (hr : row < g.length) (hc : col < (g.getD row []).length) :
    get2 (fsdPass g w h h) row col = 255 := by
  rw [get2_fsdPass_stable g w h row col h hrow]
  show get2 (fsdRow (fsdPass g w h row) row w h w) row col = 255
  rw [get2_fsdRow_stable _ _ _ _ _ w hcol]
  show get2 (fsdPixel (fsdRow (fsdPass g w h row) row w h col) row col w h)
    row col = 255
  apply get2_fsdPixel_border _ _ _ _ _ hb
  · rw [fsdRow_length, fsdPass_length]
    exact hr
  · rw [fsdRow_rowlen, fsdPass_rowlen]
    exact hc

/-! ### Indexing the 3-channel replication and mapped rows -/

theorem getD_map_row (f : List ℕ → List ℕ) (l : Grid) (n : ℕ)
    (hn : n < l.length) : (l.map f).getD n [] = f (l.getD n []) := by
  induction l generalizing n with
  | nil => simp at hn
  | cons a t ih =>
      cases n with
      | zero => rfl
      | succ m =>
          simp only [List.length_cons, Nat.succ_lt_succ_iff] at hn
          simpa using ih m hn

theorem tripleRow_length (r : List ℕ) : ∀ n, (tripleRow r n).length = 3 * n := by
  intro n
  induction n with
  | zero => rfl
  | succ m ih =>
      rw [tripleRow, List.length_append, ih]
      simp
      omega

theorem tripleRow_getD (r : List ℕ) :
    ∀ n j k, j < n → k < 3 →
      (tripleRow r n).getD (3 * j + k) 0 = r.getD j 0 := by
  intro n
  induction n with
  | zero => intro j k hj _; omega
  | succ m ih =>
      intro j k hj hk
      by_cases hjm : j = m
      · subst hjm
        rw [tripleRow, List.getD_append_right]
        · rw [tripleRow_length]
          have h1 : 3 * j + k - 3 * j = k := by omega
          rw [h1]
          interval_cases k <;> rfl
        · rw [tripleRow_length]
          omega
      · have hlt : j < m := by omega
        rw [tripleRow, List.getD_append]
        · exact ih j k hlt hk
        · rw [tripleRow_length]
          omega

theorem grayRow_length (r : List ℕ) (w ps : ℕ) :
    (grayRow r w ps).length = (w * ps + 2) / 3 := by
  simp [grayRow]

/-! ### Shape preservation and persistence through the fsdColor pass -/

theorem fsdColorPixel_length (g : Grid) (row col w h ps : ℕ) :
    (fsdColorPixel g row col w h ps).length = g.length := by
  unfold fsdColorPixel
  split <;> simp only [set2_length]

theorem fsdColorPixel_rowlen (g : Grid) (row col w h ps r : ℕ) :
    ((fsdColorPixel g row col w h ps).getD r []).length = (g.getD r []).length := by
  unfold fsdColorPixel
  split <;> simp only [set2_rowlen]

theorem fsdColorRow_length (g : Grid) (row w h ps : ℕ) :
    ∀ n, (fsdColorRow g row w h ps n).length = g.length := by
  intro n
  induction n with
  | zero => rfl
  | succ m ih => rw [fsdColorRow, fsdColorPixel_length, ih]

theorem fsdColorRow_rowlen (g : Grid) (row w h ps r : ℕ) :
    ∀ n, ((fsdColorRow g row w h ps n).getD r []).length = (g.getD r []).length := by
  intro n
  induction n with
  | zero => rfl
  | succ m ih => rw [fsdColorRow, fsdColorPixel_rowlen, ih]

theorem fsdColorPass_length (g : Grid) (w h ps : ℕ) :
    ∀ n, (fsdColorPass g w h ps n).length = g.length := by
  intro n
  induction n with
  | zero => rfl
  | succ m ih => rw [fsdColorPass, fsdColorRow_length, ih]

theorem fsdColorPass_rowlen (g : Grid) (w h ps r : ℕ) :
    ∀ n, ((fsdColorPass g w h ps n).getD r []).length = (g.getD r []).length := by
  intro n
  induction n with
  | zero => rfl
  | succ m ih => rw [fsdColorPass, fsdColorRow_rowlen, ih]

/-- The fsdColor loop body never writes to a byte strictly before the
visited pixel group in raster order. -/
theorem get2_fsdColorPixel_of_lt (g : Grid) (row col w h ps r c : ℕ)
    (hlt : r < row ∨ (r = row ∧ c < col)) :
    get2 (fsdColorPixel g row col w h ps) r c = get2 g r c := by
  unfold fsdColorPixel
  rcases hlt with hlt | ⟨rfl, hcc⟩
  · have a1 : ¬ (row = r) := by omega
    have a2 : ¬ (row + 1 = r) := by omega
    split <;>
      simp only [get2_set2_ne, a1, a2, ne_eq, not_false_iff, true_or]
  · have b1 : ¬ (r + 1 = r) := by omega
    have b2 : ¬ (col = c) := by omega
    have b3 : ¬ (col + 1 = c) := by omega
    have b4 : ¬ (col + 2 = c) := by omega
    have b5 : ¬ (col + 3 = c) := by omega
    have b6 : ¬ (col + 4 = c) := by omega
    have b7 : ¬ (col + 5 = c) := by omega
    split <;>
      simp only [get2_set2_ne, b1, b2, b3, b4, b5, b6, b7, ne_eq,
        not_false_iff, true_or, or_true]

/-- Rows before the visited row are untouched by an fsdColor row pass. -/
theorem get2_fsdColorRow_of_lt_row (g : Grid) (row w h ps r c : ℕ)
    (hr : r < row) :
    ∀ n, get2 (fsdColorRow g row w h ps n) r c = get2 g r c := by
  intro n
  induction n with
  | zero => rfl
  | succ m ih =>
      rw [fsdColorRow, get2_fsdColorPixel_of_lt _ _ _ _ _ _ _ _ (Or.inl hr), ih]

/-- Once a pixel group of the visited row has been processed, the rest
of the row pass leaves its bytes unchanged. -/
theorem get2_fsdColorRow_stable (g : Grid) (row w h ps c j : ℕ) :
    ∀ n, j < n → c < 3 * (j + 1) →
      get2 (fsdColorRow g row w h ps n) row c =
        get2 (fsdColorRow g row w h ps (j + 1)) row c := by
  intro n
  induction n with
  | zero => omega
  | succ m ih =>
      intro hn hc
      by_cases hjm : j = m
      · subst hjm; rfl
      · have hlt : j < m := by omega
        have hcm : c < 3 * m := by omega
        rw [fsdColorRow, get2_fsdColorPixel_of_lt _ _ _ _ _ _ _ _ (Or.inr ⟨rfl, hcm⟩),
          ih hlt hc]

/-- Once a row has been processed, the rest of the fsdColor pass leaves
it unchanged. -/
theorem get2_fsdColorPass_stable (g : Grid) (w h ps row c : ℕ) :
    ∀ m, row < m →
      get2 (fsdColorPass g w h ps m) row c =
        get2 (fsdColorPass g w h ps (row + 1)) row c := by
  intro m
  induction m with
  | zero => omega
  | succ k ih =>
      intro hm
      by_cases hrk : row = k
      · subst hrk; rfl
      · have hlt : row < k := by omega
        rw [fsdColorPass, get2_fsdColorRow_of_lt_row _ _ _ _ _ _ _ hlt, ih hlt]

/-- A border pixel group is written to palette entry 0 by its own loop
iteration. -/
theorem fsdColorPixel_border (g : Grid) (row col w h ps : ℕ)
    (hb : col = 0 ∨ w * ps - ps ≤ col ∨ row = h - 1)
    (hr : row < g.length) (hc : col + 2 < (g.getD row []).length) :
    get2 (fsdColorPixel g row col w h ps) row col = palByte 0 0 ∧
    get2 (fsdColorPixel g row col w h ps) row (col + 1) = palByte 0 1 ∧
    get2 (fsdColorPixel g row col w h ps) row (col + 2) = palByte 0 2 := by
  have n1 : ¬ (col + 1 = col) := by omega
  have n2 : ¬ (col + 2 = col) := by omega
  have n3 : ¬ (col + 2 = col + 1) := by omega
  have c0 : col < (g.getD row []).length := by omega
  have c1 : col + 1 < (g.getD row []).length := by omega
  refine ⟨?_, ?_, ?_⟩ <;>
    simp only [fsdColorPixel, if_pos hb, get2_set2_ne, get2_set2_self,
      set2_length, set2_rowlen, n1, n2, n3, hr, c0, c1, hc, ne_eq,
      not_false_iff, true_or, or_true]

/-- An interior pixel group is written to the palette entry chosen by
the nearest-color search, whose index is below 7. -/
theorem nearestColor_lt (r g b : ℕ) : nearestColor r g b < 7 := by
  unfold nearestColor
  have aux : ∀ (l : List ℕ) (acc : ℕ × ℕ), acc.1 < 7 → (∀ i ∈ l, i < 7) →
      (l.foldl (fun (acc : ℕ × ℕ) i =>
        let d := distSq r g b i
        if i = 0 then (i, d)
        else if acc.2 > d then (i, d) else acc) acc).1 < 7 := by
    intro l
    induction l with
    | nil => intro acc ha _; exact ha
    | cons x t ih =>
        intro acc ha hl
        simp only [List.foldl_cons]
        apply ih
        · by_cases hx : x = 0
          · simp [hx]
          · simp only [if_neg hx]
            split
            · exact hl x (List.mem_cons_self x t)
            · exact ha
        · intro i hi
          exact hl i (List.mem_cons_of_mem x hi)
  apply aux
  · decide
  · intro i hi
    simp only [List.mem_range] at hi
    exact hi

/-- The three bytes of an interior pixel group after its own loop
iteration hold the chosen palette entry. -/
theorem fsdColorPixel_interior_writes (g : Grid) (row col w h ps : ℕ)
    (hb : ¬ (col = 0 ∨ w * ps - ps ≤ col ∨ row = h - 1))
    (hr : row < g.length) (hc : col + 2 < (g.getD row []).length) :
    get2 (fsdColorPixel g row col w h ps) row col =
      palByte (nearestColor (get2 g row col) (get2 g row (col + 1)) (get2 g row (col + 2))) 0 ∧
    get2 (fsdColorPixel g row col w h ps) row (col + 1) =
      palByte (nearestColor (get2 g row col) (get2 g row (col + 1)) (get2 g row (col + 2))) 1 ∧
    get2 (fsdColorPixel g row col w h ps) row (col + 2) =
      palByte (nearestColor (get2 g row col) (get2 g row (col + 1)) (get2 g row (col + 2))) 2 := by
  have n1 : ¬ (col + 1 = col) := by omega
  have n2 : ¬ (col + 2 = col) := by omega
  have n3 : ¬ (col + 2 = col + 1) := by omega
  have c0 : col < (g.getD row []).length := by omega
  have c1 : col + 1 < (g.getD row []).length := by omega
  refine ⟨?_, ?_, ?_⟩ <;>
    simp only [fsdColorPixel, if_neg hb, get2_set2_ne, get2_set2_self,
      set2_length, set2_rowlen, n1, n2, n3, hr, c0, c1, hc, ne_eq,
      not_false_iff, true_or, or_true]

/-- Focusing the whole fsdColor pass onto the one loop iteration that
finalizes a byte of pixel group j of a given row (pixelSize 3). -/
theorem get2_fsdColorPass_focus (g : Grid) (w h row j c : ℕ)
    (hrow : row < h) (hj : j < (w * 3 + 2) / 3) (hcb : c < 3 * (j + 1)) :
    get2 (fsdColorPass g w h 3 h) row c =
      get2 (fsdColorPixel (fsdColorRow (fsdColorPass g w h 3 row) row w h 3 j)
        row (3 * j) w h 3) row c := by
  rw [get2_fsdColorPass_stable g w h 3 row c h hrow]
  show get2 (fsdColorRow (fsdColorPass g w h 3 row) row w h 3 ((w * 3 + 2) / 3))
    row c = _
  rw [get2_fsdColorRow_stable (fsdColorPass g w h 3 row) row w h 3 c j
    ((w * 3 + 2) / 3) hj hcb]
  rfl

/-- After the whole fsdColor pass, every border pixel group holds
palette entry 0. -/
theorem fsdColorPass_border_palette (g : Grid) (w h row j : ℕ)
    (hrow : row < h) (hj : j < w)
    (hbb : 3 * j = 0 ∨ w * 3 - 3 ≤ 3 * j ∨ row = h - 1)
    (hr : row < g.length) (hc : 3 * j + 2 < (g.getD row []).length) :
    get2 (fsdColorPass g w h 3 h) row (3 * j) = palByte 0 0 ∧
    get2 (fsdColorPass g w h 3 h) row (3 * j + 1) = palByte 0 1 ∧
    get2 (fsdColorPass g w h 3 h) row (3 * j + 2) = palByte 0 2 := by
  have hjn : j < (w * 3 + 2) / 3 := by omega
  have hr2 : row <
      (fsdColorRow (fsdColorPass g w h 3 row) row w h 3 j).length := by
    rw [fsdColorRow_length, fsdColorPass_length]
    exact hr
  have hc2 : 3 * j + 2 <
      ((fsdColorRow (fsdColorPass g w h 3 row) row w h 3 j).getD row []).length := by
    rw [fsdColorRow_rowlen, fsdColorPass_rowlen]
    exact hc
  have hstep := fsdColorPixel_border
    (fsdColorRow (fsdColorPass g w h 3 row) row w h 3 j) row (3 * j) w h 3
    hbb hr2 hc2
  refine ⟨?_, ?_, ?_⟩
  · rw [get2_fsdColorPass_focus g w h row j (3 * j) hrow hjn (by omega)]
    exact hstep.1
  · rw [get2_fsdColorPass_focus g w h row j (3 * j + 1) hrow hjn (by omega)]
    exact hstep.2.1
  · rw [get2_fsdColorPass_focus g w h row j (3 * j + 2) hrow hjn (by omega)]
    exact hstep.2.2

/-- After the whole fsdColor pass, every pixel group holds one of the 7
palette entries. -/
theorem fsdColorPass_pixel_palette (g : Grid) (w h row j : ℕ)
    (hrow : row < h) (hj : j < w)
    (hr : row < g.length) (hc : 3 * j + 2 < (g.getD row []).length) :
    ∃ i, i < 7 ∧
      get2 (fsdColorPass g w h 3 h) row (3 * j) = palByte i 0 ∧
      get2 (fsdColorPass g w h 3 h) row (3 * j + 1) = palByte i 1 ∧
      get2 (fsdColorPass g w h 3 h) row (3 * j + 2) = palByte i 2 := by
  by_cases hbb : 3 * j = 0 ∨ w * 3 - 3 ≤ 3 * j ∨ row = h - 1
  · exact ⟨0, by decide, fsdColorPass_border_palette g w h row j hrow hj hbb hr hc⟩
  · have hjn : j < (w * 3 + 2) / 3 := by omega
    have hr2 : row <
        (fsdColorRow (fsdColorPass g w h 3 row) row w h 3 j).length := by
      rw [fsdColorRow_length, fsdColorPass_length]
      exact hr
    have hc2 : 3 * j + 2 <
        ((fsdColorRow (fsdColorPass g w h 3 row) row w h 3 j).getD row []).length := by
      rw [fsdColorRow_rowlen, fsdColorPass_rowlen]
      exact hc
    have hstep := fsdColorPixel_interior_writes
      (fsdColorRow (fsdColorPass g w h 3 row) row w h 3 j) row (3 * j) w h 3
      hbb hr2 hc2
    refine ⟨nearestColor
        (get2 (fsdColorRow (fsdColorPass g w h 3 row) row w h 3 j) row (3 * j))
        (get2 (fsdColorRow (fsdColorPass g w h 3 row) row w h 3 j) row (3 * j + 1))
        (get2 (fsdColorRow (fsdColorPass g w h 3 row) row w h 3 j) row (3 * j + 2)),
      nearestColor_lt _ _ _, ?_, ?_, ?_⟩
    · rw [get2_fsdColorPass_focus g w h row j (3 * j) hrow hjn (by omega)]
      exact hstep.1
    · rw [get2_fsdColorPass_focus g w h row j (3 * j + 1) hrow hjn (by omega)]
      exact hstep.2.1
    · rw [get2_fsdColorPass_focus g w h row j (3 * j + 2) hrow hjn (by omega)]
      exact hstep.2.2

/-! ### C5 -/

/-- C5: border pixels are forced to the designated fallback regardless
of input: in fsd the first column, last column, and last row of the
output hold 0xFF in all three replicated channels; in fsdColor the first
pixel group, the last pixel group of each row, and the last row hold
palette entry 0 = (0x38, 0x48, 0x8d).  Any diffusion a border pixel
received earlier is overwritten by its own loop iteration, and border
iterations compute no error. -/
theorem border_pixels_forced :
    (∀ (img : Image) (row col : ℕ),
      img.pixelSize = 3 →
      img.bitmapData.length = img.height →
      row < img.height → col < img.width →
      (col = 0 ∨ col = img.width - 1 ∨ row = img.height - 1) →
      ((Image.fsd img).bitmapData.getD row []).getD (3 * col) 0 = 255 ∧
      ((Image.fsd img).bitmapData.getD row []).getD (3 * col + 1) 0 = 255 ∧
      ((Image.fsd img).bitmapData.getD row []).getD (3 * col + 2) 0 = 255) ∧
    (∀ (img : Image) (row j : ℕ),
      img.pixelSize = 3 →
      img.bitmapData.length = img.height →
      (∀ l ∈ img.bitmapData, l.length = img.width * 3) →
      row < img.height → j < img.width →
      (j = 0 ∨ j = img.width - 1 ∨ row = img.height - 1) →
      ((Image.fsdColor img).bitmapData.getD row []).getD (3 * j) 0 = palByte 0 0 ∧
      ((Image.fsdColor img).bitmapData.getD row []).getD (3 * j + 1) 0 = palByte 0 1 ∧
      ((Image.fsdColor img).bitmapData.getD row []).getD (3 * j + 2) 0 = palByte 0 2) := by
  constructor
  · intro img row col hps hlen hrow hcol hb
    have himg : (Image.fsd img).bitmapData =
        (fsdPass (img.bitmapData.map (fun r => grayRow r img.width img.pixelSize))
          img.width img.height img.height).map (fun r => tripleRow r img.width) := rfl
    rw [himg, hps]
    have hglen : (img.bitmapData.map
        (fun r => grayRow r img.width 3)).length = img.height := by
      rw [List.length_map, hlen]
    have hpassrow : row < (fsdPass
        (img.bitmapData.map (fun r => grayRow r img.width 3))
        img.width img.height img.height).length := by
      rw [fsdPass_length, hglen]
      exact hrow
    rw [getD_map_row _ _ _ hpassrow]
    have hrowlen : col < ((img.bitmapData.map
        (fun r => grayRow r img.width 3)).getD row []).length := by
      rw [getD_map_row _ _ _ (by rw [hlen]; exact hrow), grayRow_length]
      omega
    have hwhite : ((fsdPass (img.bitmapData.map (fun r => grayRow r img.width 3))
        img.width img.height img.height).getD row []).getD col 0 = 255 :=
      fsdPass_border_white _ img.width img.height row col hrow hcol hb
        (by rw [hglen]; exact hrow) hrowlen
    refine ⟨?_, ?_, ?_⟩
    · have h0 := tripleRow_getD ((fsdPass (img.bitmapData.map
        (fun r => grayRow r img.width 3)) img.width img.height img.height).getD row [])
        img.width col 0 hcol (by omega)
      simp only [Nat.add_zero] at h0
      rw [h0]
      exact hwhite
    · have := tripleRow_getD ((fsdPass (img.bitmapData.map
        (fun r => grayRow r img.width 3)) img.width img.height img.height).getD row [])
        img.width col 1 hcol (by omega)
      rw [this]
      exact hwhite
    · have := tripleRow_getD ((fsdPass (img.bitmapData.map
        (fun r => grayRow r img.width 3)) img.width img.height img.height).getD row [])
        img.width col 2 hcol (by omega)
      rw [this]
      exact hwhite
  · intro img row j hps hlen hrows hrow hj hb
    have himg : (Image.fsdColor img).bitmapData =
        fsdColorPass img.bitmapData img.width img.height img.pixelSize img.height := rfl
    rw [himg, hps]
    have hbb : 3 * j = 0 ∨ img.width * 3 - 3 ≤ 3 * j ∨ row = img.height - 1 := by
      rcases hb with hb | hb | hb
      · left; omega
      · right; left; omega
      · right; right; exact hb
    have hr : row < img.bitmapData.length := by rw [hlen]; exact hrow
    have hc : 3 * j + 2 < (img.bitmapData.getD row []).length := by
      rw [hrows _ (getD_mem _ _ _ hr)]
      omega
    exact fsdColorPass_border_palette img.bitmapData img.width img.height row j
      hrow hj hbb hr hc

/-- C5 witness: at the concrete all-0xFF 3x3 image the top-left fsd
output pixel is white, and at the concrete all-100 3x3 image the middle
pixel of the last fsdColor row is palette entry 0. -/
theorem border_pixels_forced_w :
    (((Image.fsd ex255).bitmapData.getD 0 []).getD (3 * 0) 0 = 255 ∧
     ((Image.fsd ex255).bitmapData.getD 0 []).getD (3 * 0 + 1) 0 = 255 ∧
     ((Image.fsd ex255).bitmapData.getD 0 []).getD (3 * 0 + 2) 0 = 255) ∧
    (((Image.fsdColor c10ex).bitmapData.getD 2 []).getD (3 * 1) 0 = palByte 0 0 ∧
     ((Image.fsdColor c10ex).bitmapData.getD 2 []).getD (3 * 1 + 1) 0 = palByte 0 1 ∧
     ((Image.fsdColor c10ex).bitmapData.getD 2 []).getD (3 * 1 + 2) 0 = palByte 0 2) :=
  ⟨border_pixels_forced.1 ex255 0 0 rfl (by decide) (by decide) (by decide)
      (Or.inl rfl),
   border_pixels_forced.2 c10ex 2 1 rfl (by decide) (by decide) (by decide)
      (by decide) (Or.inr (Or.inr (by decide)))⟩

/-! ### C10 -/

/-- C10: after fsdColor on a well-formed 3-channel buffer, the channel
count is 3, width and height are unchanged, and every pixel group holds
one of the 7 fixed palette entries. -/
theorem fsdColor_output_in_palette (img : Image)
    (hps : img.pixelSize = 3)
    (hlen : img.bitmapData.length = img.height)
    (hrows : ∀ l ∈ img.bitmapData, l.length = img.width * 3)
    (hh : 1 ≤ img.height) :
    (Image.fsdColor img).pixelSize = 3 ∧
    (Image.fsdColor img).height = img.height ∧
    (Image.fsdColor img).width = img.width ∧
    ∀ row, row < img.height → ∀ j, j < img.width → ∃ i, i < 7 ∧
      ((Image.fsdColor img).bitmapData.getD row []).getD (3 * j) 0 = palByte i 0 ∧
      ((Image.fsdColor img).bitmapData.getD row []).getD (3 * j + 1) 0 = palByte i 1 ∧
      ((Image.fsdColor img).bitmapData.getD row []).getD (3 * j + 2) 0 = palByte i 2 := by
  have himg : (Image.fsdColor img).bitmapData =
      fsdColorPass img.bitmapData img.width img.height img.pixelSize img.height := rfl
  refine ⟨rfl, ?_, ?_, ?_⟩
  · show (fsdColorPass img.bitmapData img.width img.height img.pixelSize
      img.height).length = img.height
    rw [fsdColorPass_length, hlen]
  · show ((fsdColorPass img.bitmapData img.width img.height img.pixelSize
      img.height).getD 0 []).length / 3 = img.width
    rw [fsdColorPass_rowlen]
    rw [hrows _ (getD_mem _ _ _ (by omega))]
    omega
  · intro row hrow j hj
    rw [himg, hps]
    have hr : row < img.bitmapData.length := by rw [hlen]; exact hrow
    have hc : 3 * j + 2 < (img.bitmapData.getD row []).length := by
      rw [hrows _ (getD_mem _ _ _ hr)]
      omega
    exact fsdColorPass_pixel_palette img.bitmapData img.width img.height row j
      hrow hj hr hc

/-- C10 witness at the concrete all-100 3x3 image: channel count 3,
dimensions kept, and the middle pixel holds some palette entry. -/
theorem fsdColor_output_in_palette_w :
    (Image.fsdColor c10ex).pixelSize = 3 ∧
    (Image.fsdColor c10ex).height = c10ex.height ∧
    (Image.fsdColor c10ex).width = c10ex.width ∧
    (∃ i, i < 7 ∧
      ((Image.fsdColor c10ex).bitmapData.getD 1 []).getD (3 * 1) 0 = palByte i 0 ∧
      ((Image.fsdColor c10ex).bitmapData.getD 1 []).getD (3 * 1 + 1) 0 = palByte i 1 ∧
      ((Image.fsdColor c10ex).bitmapData.getD 1 []).getD (3 * 1 + 2) 0 = palByte i 2) := by
  have ht := fsdColor_output_in_palette c10ex rfl (by decide) (by decide) (by decide)
  exact ⟨ht.1, ht.2.1, ht.2.2.1, ht.2.2.2 1 (by decide) 1 (by decide)⟩

/-! ### The fsd pass on an all-zero grid -/

theorem getD_replicate_self {α : Type} (x : α) :
    ∀ n i, (List.replicate n x).getD i x = x := by
  intro n i
  by_cases h : i < n
  · exact getD_replicate x x n i h
  · apply getD_of_length_le
    simp only [List.length_replicate]
    omega

theorem set_append_cons {α : Type} (l1 : List α) (a v : α) (t : List α) :
    (l1 ++ a :: t).set l1.length v = l1 ++ v :: t := by
  induction l1 with
  | nil => rfl
  | cons x xs ih =>
      simp only [List.cons_append, List.length_cons, List.set]
      exact congrArg (List.cons x) ih

theorem set_append_cons' {α : Type} (l1 : List α) (a v : α) (t : List α)
    (n : ℕ) (hn : n = l1.length) :
    (l1 ++ a :: t).set n v = l1 ++ v :: t := by
  subst hn
  exact set_append_cons l1 a v t

theorem getD_append_cons' {α : Type} (l1 : List α) (a d : α) (t : List α)
    (n : ℕ) (hn : n = l1.length) :
    (l1 ++ a :: t).getD n d = a := by
  subst hn
  rw [List.getD_append_right _ _ _ _ le_rfl]
  simp

/-- Reading from a partially dithered all-zero row: 255 before the
cursor, 0 at and after it. -/
theorem Rmix_getD (w c x : ℕ) (_hcw : c ≤ w) :
    (Rmix w c).getD x 0 = if x < c then 255 else 0 := by
  unfold Rmix
  by_cases hx : x < c
  · rw [if_pos hx, List.getD_append]
    · exact getD_replicate _ _ _ _ hx
    · simp only [List.length_replicate]
      exact hx
  · rw [if_neg hx, List.getD_append_right]
    · exact getD_replicate_self 0 _ _
    · simp only [List.length_replicate]
      omega

theorem Gmix_getD_row (w h r c : ℕ) :
    (Gmix w h r c).getD r [] = Rmix w c := by
  unfold Gmix
  exact getD_append_cons' _ _ _ _ _ (by simp)

theorem Gmix_getD_next (w h r c : ℕ) (hr : r + 1 < h) :
    (Gmix w h r c).getD (r + 1) [] = List.replicate w 0 := by
  unfold Gmix
  rw [List.getD_append_right]
  · simp only [List.length_replicate]
    have h1 : r + 1 - r = 1 := by omega
    rw [h1]
    show (List.replicate (h - r - 1) (List.replicate w 0)).getD 0 [] = _
    exact getD_replicate _ _ _ _ (by omega)
  · simp only [List.length_replicate]
    omega

theorem Gmix_bytes (w h r c : ℕ) : Grid.Bytes (Gmix w h r c) := by
  intro l hl v hv
  unfold Gmix at hl
  rw [List.mem_append] at hl
  rcases hl with hl | hl
  · rw [List.eq_of_mem_replicate hl] at hv
    rw [List.eq_of_mem_replicate hv]
    omega
  · rcases List.mem_cons.mp hl with hl | hl
    · subst hl
      unfold Rmix at hv
      rw [List.mem_append] at hv
      rcases hv with hv | hv <;> rw [List.eq_of_mem_replicate hv] <;> omega
    · rw [List.eq_of_mem_replicate hl] at hv
      rw [List.eq_of_mem_replicate hv]
      omega

/-- Adding a zero term mod 256 and writing back is the identity (the
uint8_t diffusion of a zero term). -/
theorem set2_byteAdd_zeroN {g : Grid} (hg : Grid.Bytes g) (r c : ℕ) :
    set2 g r c (byteAdd (get2 g r c) 0) = g := by
  have hv : byteAdd (get2 g r c) 0 = get2 g r c := by
    have := get2_lt_of_bytes hg r c
    unfold byteAdd
    omega
  rw [hv, set2_get2_self]

/-- Writing 255 at the cursor of the mixed row advances the invariant. -/
theorem set2_Gmix (w h r c : ℕ) (hc : c < w) :
    set2 (Gmix w h r c) r c 255 = Gmix w h r (c + 1) := by
  unfold set2
  rw [Gmix_getD_row]
  have hmix : (Rmix w c).set c 255 = Rmix w (c + 1) := by
    unfold Rmix
    have h1 : w - c = (w - c - 1) + 1 := by omega
    rw [h1, List.replicate_succ]
    rw [set_append_cons' _ _ _ _ _ (by simp)]
    rw [List.replicate_succ' c]
    rw [List.append_assoc]
    have h2 : w - (c + 1) = w - c - 1 := by omega
    rw [h2]
    rfl
  rw [hmix]
  show (Gmix w h r c).set r (Rmix w (c + 1)) = _
  unfold Gmix
  exact set_append_cons' _ _ _ _ _ (by simp)

/-- One fsd loop iteration on the all-zero invariant grid advances the
cursor: the border case writes 255 directly, and the interior case
quantizes 0 to 255 with error 1 whose four weighted terms all truncate
to 0. -/
theorem fsdPixel_Gmix (w h r c : ℕ) (hc : c < w) (_hr : r < h) :
    fsdPixel (Gmix w h r c) r c w h = Gmix w h r (c + 1) := by
  by_cases hb : c = 0 ∨ c = w - 1 ∨ r = h - 1
  · unfold fsdPixel
    rw [if_pos hb]
    exact set2_Gmix w h r c hc
  · unfold fsdPixel
    rw [if_neg hb]
    have hold : get2 (Gmix w h r c) r c = 0 := by
      unfold get2
      rw [Gmix_getD_row, Rmix_getD w c c (by omega)]
      simp
    have z7 : fsdErr 0 255 * 7 / 16 = 0 := by decide
    have z1 : fsdErr 0 255 * 1 / 16 = 0 := by decide
    have z5 : fsdErr 0 255 * 5 / 16 = 0 := by decide
    have z3 : fsdErr 0 255 * 3 / 16 = 0 := by decide
    have hq : fsdQuant 0 = 255 := by decide
    simp only [hold, hq, z7, z1, z5, z3]
    rw [set2_byteAdd_zeroN (Gmix_bytes w h r c)]
    rw [set2_byteAdd_zeroN (Gmix_bytes w h r c)]
    rw [set2_byteAdd_zeroN (Gmix_bytes w h r c)]
    rw [set2_byteAdd_zeroN (Gmix_bytes w h r c)]
    exact set2_Gmix w h r c hc

/-- The fsd row pass on the all-zero invariant grid sweeps the cursor. -/
theorem fsdRow_Gmix (w h r : ℕ) (hr : r < h) :
    ∀ n, n ≤ w → fsdRow (Gmix w h r 0) r w h n = Gmix w h r n := by
  intro n
  induction n with
  | zero => intro _; rfl
  | succ m ih =>
      intro hm
      rw [fsdRow, ih (by omega), fsdPixel_Gmix w h r m (by omega) hr]

theorem Gmix_zero (w h r : ℕ) (hr : r < h) :
    Gmix w h r 0 = Hmix w h r := by
  unfold Gmix Hmix Rmix
  have h1 : h - r = (h - r - 1) + 1 := by omega
  rw [h1, List.replicate_succ]
  rfl

theorem Gmix_full (w h r : ℕ) :
    Gmix w h r w = Hmix w h (r + 1) := by
  unfold Gmix Hmix Rmix
  have h1 : w - w = 0 := by omega
  rw [h1]
  have h2 : h - (r + 1) = h - r - 1 := by omega
  rw [h2, List.replicate_succ' r, List.append_assoc]
  simp

/-- The whole fsd pass turns the all-zero grid into the all-255 grid,
row by row. -/
theorem fsdPass_Hmix (w h : ℕ) :
    ∀ n, n ≤ h → fsdPass (Hmix w h 0) w h n = Hmix w h n := by
  intro n
  induction n with
  | zero => intro _; rfl
  | succ m ih =>
      intro hm
      rw [fsdPass, ih (by omega), ← Gmix_zero w h m (by omega),
        fsdRow_Gmix w h m (by omega) w le_rfl, Gmix_full]

theorem tripleRow_replicate (w : ℕ) :
    ∀ n, n ≤ w → tripleRow (List.replicate w 255) n = List.replicate (3 * n) 255 := by
  intro n
  induction n with
  | zero => intro _; rfl
  | succ m ih =>
      intro hm
      rw [tripleRow, ih (by omega), getD_replicate 255 0 w m (by omega)]
      have h1 : 3 * (m + 1) = 3 * m + 3 := by omega
      rw [h1, List.replicate_add]
      rfl

/-! ### C1 -/

/-- C1 (amended): monochrome dithering a 3-channel buffer all of whose
samples are 0x00 produces an all-white output (every output sample
0xFF), and every diffused error term is zero: the error for old = 0
wraps to 1, and each of its four weighted terms truncates to 0, so
nothing is diffused anywhere.  (The all-0xFF buffer of the original
claim does the opposite: 255 quantizes to 0x00 with error 255.) -/
theorem fsd_all_zero_white (w h : ℕ) :
    (Image.fsd ⟨List.replicate h (List.replicate (3 * w) 0), w, h, 3⟩).bitmapData =
      List.replicate h (List.replicate (3 * w) 255) ∧
    fsdErr 0 (fsdQuant 0) * 7 / 16 = 0 ∧
    fsdErr 0 (fsdQuant 0) * 1 / 16 = 0 ∧
    fsdErr 0 (fsdQuant 0) * 5 / 16 = 0 ∧
    fsdErr 0 (fsdQuant 0) * 3 / 16 = 0 := by
  refine ⟨?_, by decide, by decide, by decide, by decide⟩
  show ((fsdPass ((List.replicate h (List.replicate (3 * w) 0)).map
      (fun r => grayRow r w 3)) w h h).map (fun r => tripleRow r w)) = _
  have hgray : (List.replicate h (List.replicate (3 * w) 0)).map
      (fun r => grayRow r w 3) = List.replicate h (List.replicate w 0) := by
    rw [List.map_replicate]
    congr 1
    unfold grayRow
    have hn : (w * 3 + 2) / 3 = w := by omega
    rw [hn]
    have hmem : ∀ b ∈ (List.range w).map
        (fun i => ((List.replicate (3 * w) 0).getD (3 * i) 0 +
          (List.replicate (3 * w) 0).getD (3 * i + 1) 0 +
          (List.replicate (3 * w) 0).getD (3 * i + 2) 0) / 3), b = 0 := by
      intro b hb
      rw [List.mem_map] at hb
      obtain ⟨i, _, rfl⟩ := hb
      rw [getD_replicate_self, getD_replicate_self, getD_replicate_self]
    have := List.eq_replicate_of_mem hmem
    rwa [List.length_map, List.length_range] at this
  rw [hgray]
  have hH0 : List.replicate h (List.replicate w 0) = Hmix w h 0 := by
    unfold Hmix
    simp
  rw [hH0, fsdPass_Hmix w h h le_rfl]
  have hHh : Hmix w h h = List.replicate h (List.replicate w 255) := by
    unfold Hmix
    simp
  rw [hHh, List.map_replicate, tripleRow_replicate w w le_rfl]

/-! ### The shrink row loop: flush counting -/

/-- Destination row indices are nondecreasing. -/
theorem dest_mono (nw w r : ℕ) : nw * r / w ≤ nw * (r + 1) / w :=
  Nat.div_le_div_right (Nat.mul_le_mul_left _ (by omega))

/-- Destination row indices advance by at most one per source row when
the image shrinks. -/
theorem dest_step (nw w r : ℕ) (hw : 0 < w) (hnw : nw ≤ w) :
    nw * (r + 1) / w ≤ nw * r / w + 1 := by
  have h1 : nw * (r + 1) ≤ nw * r + w := by
    have h2 : nw * (r + 1) = nw * r + nw := Nat.mul_succ nw r
    omega
  calc nw * (r + 1) / w ≤ (nw * r + w) / w := Nat.div_le_div_right h1
    _ = nw * r / w + 1 := Nat.add_div_right _ hw

/-- After processing source rows 0..n, oldRow and the number of emitted
rows both equal the destination index of row n: the accumulation of the
final destination group is never flushed. -/
theorem shrinkRows_count (data : Grid) (nw w ps : ℕ)
    (hw : 0 < w) (hnw : nw ≤ w) :
    ∀ n, (shrinkRows data nw w ps (n + 1)).oldRow = nw * n / w ∧
      (shrinkRows data nw w ps (n + 1)).out.length = nw * n / w := by
  intro n
  induction n with
  | zero =>
      have hz : nw * 0 / w = 0 := by simp
      show (shrinkRowStep data nw w ps 0 _).oldRow = _ ∧
        (shrinkRowStep data nw w ps 0 _).out.length = _
      unfold shrinkRowStep
      rw [hz]
      simp [shrinkRows]
  | succ m ih =>
      have hmono := dest_mono nw w m
      have hstep := dest_step nw w m hw hnw
      show (shrinkRowStep data nw w ps (m + 1) (shrinkRows data nw w ps (m + 1))).oldRow = _ ∧
        (shrinkRowStep data nw w ps (m + 1) (shrinkRows data nw w ps (m + 1))).out.length = _
      unfold shrinkRowStep
      rw [ih.1]
      by_cases hlt : nw * m / w < nw * (m + 1) / w
      · rw [if_pos hlt]
        refine ⟨rfl, ?_⟩
        show ((shrinkRows data nw w ps (m + 1)).out ++ _).length = _
        rw [List.length_append, ih.2]
        simp only [List.length_cons, List.length_nil]
        omega
      · rw [if_neg hlt]
        constructor
        · show nw * m / w = nw * (m + 1) / w
          omega
        · show (shrinkRows data nw w ps (m + 1)).out.length = _
          rw [ih.2]
          omega

theorem flushLine_length (t c : List ℕ) (nw ps : ℕ) :
    (flushLine t c nw ps).length = nw * ps := by
  simp [flushLine]

/-- Every emitted row has nw * ps bytes. -/
theorem shrinkRows_rowlens (data : Grid) (nw w ps : ℕ) :
    ∀ n, ∀ l ∈ (shrinkRows data nw w ps n).out, l.length = nw * ps := by
  intro n
  induction n with
  | zero => intro l hl; simp [shrinkRows] at hl
  | succ m ih =>
      intro l hl
      rw [shrinkRows] at hl
      unfold shrinkRowStep at hl
      split at hl
      · simp only [List.mem_append, List.mem_singleton] at hl
        rcases hl with hl | hl
        · exact ih l hl
        · rw [hl]
          exact flushLine_length _ _ nw ps
      · exact ih l hl

/-! ### C3 -/

/-- C3 (amended): for 1 <= newWidth < width, shrink emits one output
row per destination row index transition, which leaves exactly
trunc(scale * (height - 1)) rows: the rows accumulated for the final
destination index are never flushed, so the final height is
trunc(scale * (height - 1)), not trunc(scale * height); the width does
become newWidth whenever at least one row was emitted. -/
theorem shrink_flush_count (img : Image) (nw : ℕ)
    (h0 : 0 < nw) (h1 : nw < img.width) (hh : 1 ≤ img.height)
    (hps : 0 < img.pixelSize) :
    Image.shrink img nw = .ok (Image.shrinkCore img nw) ∧
    (Image.shrinkCore img nw).height = nw * (img.height - 1) / img.width ∧
    (1 ≤ nw * (img.height - 1) / img.width →
      (Image.shrinkCore img nw).width = nw) := by
  have hok : Image.shrink img nw = .ok (img.shrinkCore nw) := by
    unfold Image.shrink
    rw [if_neg (by omega), if_neg (by omega)]
  have hcount := (shrinkRows_count img.bitmapData nw img.width img.pixelSize
    (by omega) (by omega) (img.height - 1)).2
  rw [show img.height - 1 + 1 = img.height from by omega] at hcount
  refine ⟨hok, ?_, ?_⟩
  · show (shrinkRows img.bitmapData nw img.width img.pixelSize
      img.height).out.length = _
    exact hcount
  · intro hpos
    show ((shrinkRows img.bitmapData nw img.width img.pixelSize
      img.height).out.getD 0 []).length / img.pixelSize = nw
    have hmem : (shrinkRows img.bitmapData nw img.width img.pixelSize
        img.height).out.getD 0 [] ∈
        (shrinkRows img.bitmapData nw img.width img.pixelSize img.height).out :=
      getD_mem _ _ _ (by omega)
    rw [shrinkRows_rowlens img.bitmapData nw img.width img.pixelSize
      img.height _ hmem]
    exact Nat.mul_div_cancel nw hps

/-- C3 amended witness at the 4x4 buffer shrunk to width 2: one emitted
row (2 * 3 / 4 = 1) and width 2. -/
theorem shrink_flush_count_w :
    Image.shrink shrinkEx 2 = .ok (Image.shrinkCore shrinkEx 2) ∧
    (Image.shrinkCore shrinkEx 2).height =
      2 * (shrinkEx.height - 1) / shrinkEx.width ∧
    (Image.shrinkCore shrinkEx 2).width = 2 := by
  have ht := shrink_flush_count shrinkEx 2 (by decide) (by decide) (by decide)
    (by decide)
  exact ⟨ht.1, ht.2.1, ht.2.2 (by decide)⟩

/-! ### The shrink accumulators on uniform data -/

theorem accumCols_lengths (rowData : List ℕ) (nw w : ℕ) :
    ∀ n tc, (accumCols rowData nw w n tc).1.length = tc.1.length ∧
      (accumCols rowData nw w n tc).2.length = tc.2.length := by
  intro n
  induction n with
  | zero => intro tc; exact ⟨rfl, rfl⟩
  | succ m ih =>
      intro tc
      rw [accumCols]
      constructor
      · show ((accumCols rowData nw w m tc).1.set _ _).length = _
        rw [List.length_set]
        exact (ih tc).1
      · show ((accumCols rowData nw w m tc).2.set _ _).length = _
        rw [List.length_set]
        exact (ih tc).2

/-- On a row of constant bytes, the running totals stay equal to the
running counts times the constant. -/
theorem accumCols_uniform (rowData : List ℕ) (nw w cval : ℕ) :
    ∀ n tc, (∀ k, k < n → rowData.getD k 0 = cval) →
      tc.1.length = tc.2.length →
      (∀ i, tc.1.getD i 0 = tc.2.getD i 0 * cval) →
      ∀ i, (accumCols rowData nw w n tc).1.getD i 0 =
        (accumCols rowData nw w n tc).2.getD i 0 * cval := by
  intro n
  induction n with
  | zero => intro tc _ _ hpt i; exact hpt i
  | succ m ih =>
      intro tc hrow hlen hpt i
      rw [accumCols]
      have hrec := ih tc (fun k hk => hrow k (by omega)) hlen hpt
      have hleneq : (accumCols rowData nw w m tc).1.length =
          (accumCols rowData nw w m tc).2.length := by
        rw [(accumCols_lengths rowData nw w m tc).1,
          (accumCols_lengths rowData nw w m tc).2, hlen]
      by_cases hidx : i = nw * m / w
      · subst hidx
        by_cases hin : nw * m / w < (accumCols rowData nw w m tc).1.length
        · show ((accumCols rowData nw w m tc).1.set _ _).getD _ 0 = _
          rw [getD_set_self _ _ _ _ hin, getD_set_self _ _ _ _ (by omega)]
          rw [hrec, hrow m (by omega)]
          ring
        · show ((accumCols rowData nw w m tc).1.set _ _).getD _ 0 = _
          rw [set_of_length_le _ _ _ (by omega), set_of_length_le _ _ _ (by omega)]
          exact hrec _
      · show ((accumCols rowData nw w m tc).1.set _ _).getD _ 0 = _
        rw [getD_set_ne _ _ _ _ _ (fun hh => hidx hh.symm),
          getD_set_ne _ _ _ _ _ (fun hh => hidx hh.symm)]
        exact hrec i

/-- Counts never decrease while accumulating a row. -/
theorem accumCols_counts_le (rowData : List ℕ) (nw w : ℕ) :
    ∀ n tc i, tc.2.getD i 0 ≤ (accumCols rowData nw w n tc).2.getD i 0 := by
  intro n
  induction n with
  | zero => intro tc i; exact le_rfl
  | succ m ih =>
      intro tc i
      rw [accumCols]
      show _ ≤ ((accumCols rowData nw w m tc).2.set _ _).getD i 0
      by_cases hidx : i = nw * m / w
      · subst hidx
        by_cases hin : nw * m / w < (accumCols rowData nw w m tc).2.length
        · rw [getD_set_self _ _ _ _ hin]
          have := ih tc (nw * m / w)
          omega
        · rw [set_of_length_le _ _ _ (by omega)]
          exact ih tc _
      · rw [getD_set_ne _ _ _ _ _ (fun hh => hidx hh.symm)]
        exact ih tc i

/-- Any destination index hit by some column below n has a positive
count after accumulating the first n columns. -/
theorem accumCols_counts_pos (rowData : List ℕ) (nw w : ℕ) :
    ∀ n tc k, k < n → nw * k / w < tc.2.length →
      0 < (accumCols rowData nw w n tc).2.getD (nw * k / w) 0 := by
  intro n
  induction n with
  | zero => intro tc k hk; omega
  | succ m ih =>
      intro tc k hk hkl
      rw [accumCols]
      show 0 < ((accumCols rowData nw w m tc).2.set _ _).getD _ 0
      have hlen2 : (accumCols rowData nw w m tc).2.length = tc.2.length :=
        (accumCols_lengths rowData nw w m tc).2
      by_cases hkm : k = m
      · subst hkm
        rw [getD_set_self _ _ _ _ (by omega)]
        omega
      · by_cases hsame : nw * k / w = nw * m / w
        · rw [hsame, getD_set_self _ _ _ _ (by omega)]
          omega
        · rw [getD_set_ne _ _ _ _ _ (fun hh => hsame hh.symm)]
          exact ih tc k (by omega) hkl

/-- Intermediate-value property of the truncated scaling map: every
destination index up to the image of m is hit by some column below
m + 1. -/
theorem dest_surj (nw w : ℕ) (hw : 0 < w) (hnw : nw ≤ w) :
    ∀ m j, j ≤ nw * m / w → ∃ k, k ≤ m ∧ nw * k / w = j := by
  intro m
  induction m with
  | zero =>
      intro j hj
      simp only [Nat.mul_zero, Nat.zero_div, Nat.le_zero] at hj
      exact ⟨0, le_rfl, by simp [hj]⟩
  | succ m ih =>
      intro j hj
      by_cases hcase : j ≤ nw * m / w
      · obtain ⟨k, hk, hkj⟩ := ih j hcase
        exact ⟨k, by omega, hkj⟩
      · have hstep := dest_step nw w m hw hnw
        exact ⟨m + 1, le_rfl, by omega⟩

/-- After a full sweep over the w * ps byte columns, every destination
byte column has been hit at least once. -/
theorem accumCols_full_pos (rowData : List ℕ) (nw w ps : ℕ)
    (hw : 0 < w) (hnw : nw ≤ w) :
    ∀ tc i, i < nw * ps → tc.2.length = nw * ps →
      0 < (accumCols rowData nw w (w * ps) tc).2.getD i 0 := by
  intro tc i hi hlen
  have hnwps : 1 ≤ nw * ps := by omega
  have hnw1 : 1 ≤ nw := by
    by_contra hc
    have : nw = 0 := by omega
    subst this
    simp at hnwps
  have hps1 : 1 ≤ ps := by
    by_contra hc
    have : ps = 0 := by omega
    subst this
    simp at hnwps
  have hwps : 1 ≤ w * ps := by
    have := Nat.mul_le_mul hnw hps1
    omega
  -- i is below the image of the last column
  have hbound : i ≤ nw * (w * ps - 1) / w := by
    obtain ⟨q, hq⟩ : ∃ q, w * ps = q + 1 := ⟨w * ps - 1, by omega⟩
    have hq1 : w * ps - 1 = q := by omega
    rw [hq1, Nat.le_div_iff_mul_le hw]
    have e1 : (nw * ps - 1) * w = nw * ps * w - w := by
      rw [Nat.sub_mul, one_mul]
    have h2 : i * w ≤ (nw * ps - 1) * w :=
      Nat.mul_le_mul_right w (by omega)
    have e2 : nw * ps * w = nw * (w * ps) := by ring
    have e3 : nw * (q + 1) = nw * q + nw := Nat.mul_succ nw q
    rw [hq] at e2
    omega
  obtain ⟨k, hk, hkj⟩ := dest_surj nw w hw hnw (w * ps - 1) i hbound
  rw [← hkj]
  exact accumCols_counts_pos rowData nw w (w * ps) tc k (by omega) (by omega)

/-- A flushed line over totals that are counts times a constant, with
positive counts, is the constant line. -/
theorem flushLine_uniform (t c : List ℕ) (nw ps cval : ℕ)
    (hpt : ∀ i, t.getD i 0 = c.getD i 0 * cval)
    (hpos : ∀ i, i < nw * ps → 0 < c.getD i 0) :
    flushLine t c nw ps = List.replicate (nw * ps) cval := by
  unfold flushLine
  have hmem : ∀ b ∈ (List.range (nw * ps)).map
      (fun i => t.getD i 0 / c.getD i 0), b = cval := by
    intro b hb
    rw [List.mem_map] at hb
    obtain ⟨i, hi, rfl⟩ := hb
    rw [List.mem_range] at hi
    rw [hpt i]
    exact Nat.mul_div_cancel_left cval (hpos i hi)
  have := List.eq_replicate_of_mem hmem
  rwa [List.length_map, List.length_range] at this

/-- Invariant of the shrink row loop on all-constant data: accumulator
lengths stay nw * ps, totals stay counts times the constant, and every
emitted line is the constant line. -/
theorem shrinkRows_uniform (data : Grid) (nw w ps cval : ℕ)
    (hw : 0 < w) (hnw : nw ≤ w)
    (hdata : ∀ l ∈ data, ∀ k, k < w * ps → l.getD k 0 = cval) :
    ∀ n, n ≤ data.length →
      (shrinkRows data nw w ps n).totals.length = nw * ps ∧
      (shrinkRows data nw w ps n).counts.length = nw * ps ∧
      (∀ i, (shrinkRows data nw w ps n).totals.getD i 0 =
        (shrinkRows data nw w ps n).counts.getD i 0 * cval) ∧
      (∀ l ∈ (shrinkRows data nw w ps n).out,
        l = List.replicate (nw * ps) cval) := by
  intro n
  induction n with
  | zero =>
      intro _
      refine ⟨by simp [shrinkRows], by simp [shrinkRows], ?_, ?_⟩
      · intro i
        show (List.replicate (nw * ps) 0).getD i 0 =
          (List.replicate (nw * ps) 0).getD i 0 * cval
        rw [getD_replicate_self]
        simp
      · intro l hl
        simp [shrinkRows] at hl
  | succ m ih =>
      intro hm
      have ihm := ih (by omega)
      have hrowmem : data.getD m [] ∈ data := getD_mem _ _ _ (by omega)
      have hrow : ∀ k, k < w * ps → (data.getD m []).getD k 0 = cval :=
        fun k hk => hdata _ hrowmem k hk
      have hlen1 := (accumCols_lengths (data.getD m []) nw w (w * ps)
        ((shrinkRows data nw w ps m).totals, (shrinkRows data nw w ps m).counts)).1
      have hlen2 := (accumCols_lengths (data.getD m []) nw w (w * ps)
        ((shrinkRows data nw w ps m).totals, (shrinkRows data nw w ps m).counts)).2
      have hpt := accumCols_uniform (data.getD m []) nw w cval (w * ps)
        ((shrinkRows data nw w ps m).totals, (shrinkRows data nw w ps m).counts)
        hrow (by show (shrinkRows data nw w ps m).totals.length =
          (shrinkRows data nw w ps m).counts.length; rw [ihm.1, ihm.2.1])
        ihm.2.2.1
      have hpos : ∀ i, i < nw * ps →
          0 < (accumCols (data.getD m []) nw w (w * ps)
            ((shrinkRows data nw w ps m).totals,
              (shrinkRows data nw w ps m).counts)).2.getD i 0 :=
        fun i hi => accumCols_full_pos (data.getD m []) nw w ps hw hnw
          ((shrinkRows data nw w ps m).totals, (shrinkRows data nw w ps m).counts)
          i hi ihm.2.1
      rw [shrinkRows]
      unfold shrinkRowStep
      split
      · refine ⟨by simp, by simp, ?_, ?_⟩
        · intro i
          show (List.replicate (nw * ps) 0).getD i 0 =
            (List.replicate (nw * ps) 0).getD i 0 * cval
          rw [getD_replicate_self]
          simp
        · intro l hl
          rcases List.mem_append.mp hl with hl | hl
          · exact ihm.2.2.2 l hl
          · rw [List.mem_singleton] at hl
            subst hl
            exact flushLine_uniform _ _ nw ps cval hpt hpos
      · refine ⟨?_, ?_, hpt, ihm.2.2.2⟩
        · show (accumCols (data.getD m []) nw w (w * ps) _).1.length = nw * ps
          rw [hlen1, ihm.1]
        · show (accumCols (data.getD m []) nw w (w * ps) _).2.length = nw * ps
          rw [hlen2, ihm.2.1]

/-! ### C9 -/

/-- C9 (amended): shrinking a buffer all of whose BYTES equal a constant
c to a smaller positive width yields a buffer all of whose bytes equal
c (each emitted sample is a truncated mean of identical samples).  The
original claim over uniform COLORS fails because the per-byte scaling
mixes channels; the constant-byte case is what the accumulation
preserves. -/
theorem shrink_uniform_bytes (img : Image) (nw cval : ℕ)
    (h0 : 0 < nw) (h1 : nw < img.width)
    (hlen : img.bitmapData.length = img.height)
    (hrows : ∀ l ∈ img.bitmapData,
      l = List.replicate (img.width * img.pixelSize) cval) :
    Image.shrink img nw = .ok (Image.shrinkCore img nw) ∧
    (Image.shrinkCore img nw).bitmapData =
      List.replicate (Image.shrinkCore img nw).bitmapData.length
        (List.replicate (nw * img.pixelSize) cval) := by
  have hok : Image.shrink img nw = .ok (img.shrinkCore nw) := by
    unfold Image.shrink
    rw [if_neg (by omega), if_neg (by omega)]
  have hdata : ∀ l ∈ img.bitmapData, ∀ k, k < img.width * img.pixelSize →
      l.getD k 0 = cval := by
    intro l hl k hk
    rw [hrows l hl]
    exact getD_replicate cval 0 _ k hk
  have hinv := shrinkRows_uniform img.bitmapData nw img.width img.pixelSize cval
    (by omega) (by omega) hdata img.height (by omega)
  exact ⟨hok, List.eq_replicate_of_mem hinv.2.2.2⟩

/-- C9 amended witness: the all-77 4x4 one-channel buffer shrinks to an
all-77 buffer of width 2. -/
theorem shrink_uniform_bytes_w :
    Image.shrink c9u 2 = .ok (Image.shrinkCore c9u 2) ∧
    (Image.shrinkCore c9u 2).bitmapData =
      List.replicate (Image.shrinkCore c9u 2).bitmapData.length
        (List.replicate (2 * c9u.pixelSize) 77) :=
  shrink_uniform_bytes c9u 2 77 (by decide) (by decide) (by decide) (by decide)

end Jpeg
